import Mathlib

/-!
Verification of the hobby-desk-data paint-scraper specification.

This file shallowly embeds the algorithmic core of the repository's three
main brand modules (`ak-interactive/ak_paint_scraper.py`,
`vallejo/vallejo_paint_scraper.py`, `games-workshop/citadel_paint_scraper.py`):
SKU/name normalization, paint-type derivation, the catalogue assemblers,
the single-file and batch merge engines, the paginated scrape loops, the
bitmap color sampler and the SVG color extractor.  Python strings are
modelled as Lean `String`/`List Char` (the data handled by the scrapers is
ASCII, so the ASCII case-mapping used here agrees with Python's `str.upper`
/ `str.lower` on all relevant inputs); Python dictionaries that are only
used for lookup are modelled as association lists whose lookup function
has the same semantics (later insertions shadow earlier ones where the
source overwrites, first insertion wins where the source inserts only
absent keys).  Floating-point scores in the sampler are modelled over `ℚ`;
the brightness-gate comparisons `(r+g+b)/3 > 245` and `< 10` are exact in
both models, and no theorem below depends on score tie-breaking.
-/

/-! ## Generic character and string helpers -/

/-- ASCII whitespace, matching Python's `\s` on the ASCII range. -/
def isWsChar (c : Char) : Bool :=
  c = ' ' ∨ c = '\t' ∨ c = '\n' ∨ c = '\r' ∨ c = '\x0b' ∨ c = '\x0c'

/-- ASCII decimal digit, matching Python's `\d` on ASCII input. -/
def isDigitChar (c : Char) : Bool :=
  '0' ≤ c ∧ c ≤ '9'

/-- ASCII word character, matching Python's `\w` on ASCII input. -/
def isWordChar (c : Char) : Bool :=
  c.isAlphanum ∨ c = '_'

/-- ASCII uppercase mapping, the restriction of Python's `str.upper`. -/
def upChar (c : Char) : Char :=
  if 97 ≤ c.toNat ∧ c.toNat ≤ 122 then Char.ofNat (c.toNat - 32) else c

/-- ASCII lowercase mapping, the restriction of Python's `str.lower`. -/
def lowChar (c : Char) : Char :=
  if 65 ≤ c.toNat ∧ c.toNat ≤ 90 then Char.ofNat (c.toNat + 32) else c

/-- `s.upper()` on ASCII strings. -/
def upperStr (s : String) : String :=
  ⟨s.data.map upChar⟩

/-- `s.lower()` on ASCII strings. -/
def lowerStr (s : String) : String :=
  ⟨s.data.map lowChar⟩

/-- Whether the character list `l` starts with the character list `a`. -/
def startsWithChars (a l : List Char) : Bool :=
  l.take a.length = a

/-- Whether the character list `l` ends with the character list `a`. -/
def endsWithChars (a l : List Char) : Bool :=
  a.length ≤ l.length ∧ l.drop (l.length - a.length) = a

/-- Auxiliary scan for `containsStr`. -/
def containsAux (a : List Char) : List Char → Bool
  | [] => startsWithChars a []
  | c :: t => startsWithChars a (c :: t) ∨ containsAux a t

/-- Python's substring test `needle in hay`. -/
def containsStr (needle hay : String) : Bool :=
  containsAux needle.data hay.data

/-- Remove every ASCII whitespace character; this is `re.sub(r'\s+', '', s)`. -/
def removeWs (l : List Char) : List Char :=
  l.filter (fun c => ¬ isWsChar c)

/-- Python's `str.strip()`: drop leading and trailing whitespace. -/
def stripWs (l : List Char) : List Char :=
  ((l.dropWhile isWsChar).reverse.dropWhile isWsChar).reverse

/-- Python truthiness for an optional string (`None` and `''` are falsy). -/
def optTruthy : Option String → Bool
  | none => false
  | some s => s ≠ ""

/-- First-match lookup in an association list (models Python `dict`
lookup when entries are consed at the front, so that later insertions
shadow earlier ones exactly as dict assignment overwrites). -/
def lookupA {α : Type} (m : List (String × α)) (k : String) : Option α :=
  (m.find? (fun p => p.1 = k)).map (fun p => p.2)

/-- Auxiliary scan for `firstDedup`, carrying the set of already-seen
elements. -/
def firstDedupAux : List String → List String → List String
  | [], _ => []
  | a :: l, seen =>
    if seen.contains a then firstDedupAux l seen
    else a :: firstDedupAux l (a :: seen)

/-- Keep the first occurrence of each element (Python `Counter` key order). -/
def firstDedup (l : List String) : List String :=
  firstDedupAux l []

/-! ## AK Interactive (`ak-interactive/ak_paint_scraper.py`) -/

namespace AK

/-- `normalize_sku` (ak_paint_scraper.py:304-308): remove whitespace,
uppercase.  The empty string is returned unchanged by the `if not sku`
guard, which coincides with the general branch on `''`. -/
def normalize_sku (sku : String) : String :=
  ⟨removeWs (upperStr sku).data⟩

/-- Filler words removed by `normalize_name` (ak_paint_scraper.py:320). -/
def fillerWords : List String :=
  ["ak", "interactive", "acrylic", "paint", "color", "colour"]

/-- Split on whitespace runs, dropping empty tokens (Python `str.split()`). -/
def splitWsStep (c : Char) (acc : List Char × List (List Char)) :
    List Char × List (List Char) :=
  if isWsChar c then
    if acc.1 = [] then acc else ([], acc.1 :: acc.2)
  else
    (c :: acc.1, acc.2)

/-- Python `str.split()` with no argument. -/
def splitWs (l : List Char) : List (List Char) :=
  let p := l.foldr splitWsStep ([], [])
  if p.1 = [] then p.2 else p.1 :: p.2

/-- `normalize_name` (ak_paint_scraper.py:311-322): lowercase, strip
punctuation (`[^\w\s]`), collapse whitespace, remove filler words as whole
words, collapse again.  After punctuation stripping the string is a
sequence of `\w`-runs separated by whitespace, so removing
`\b word \b` occurrences is exactly removing whole tokens. -/
def normalize_name (name : Option String) : String :=
  match name with
  | none => ""
  | some s =>
    if s = "" then "" else
      let cleaned := (lowerStr s).data.filter
        (fun c => isWordChar c ∨ isWsChar c)
      let toks := (splitWs cleaned).filter
        (fun w => ¬ (fillerWords.map String.data).contains w)
      ⟨(toks.map (fun w => w ++ [' '])).flatten.dropLast⟩

/-- Python `str.title()` on ASCII: uppercase a letter that follows a
non-letter, lowercase every other letter. -/
def pyTitleAux : Bool → List Char → List Char
  | _, [] => []
  | prevAlpha, c :: cs =>
    if c.isAlpha then
      (if prevAlpha then lowChar c else upChar c) :: pyTitleAux true cs
    else
      c :: pyTitleAux false cs

/-- Python `str.title()` on ASCII strings. -/
def pyTitle (l : List Char) : List Char :=
  pyTitleAux false l

/-- `to_sentence_case` (ak_paint_scraper.py:325-339): title-case each
whitespace-separated word that is all-caps or all-lowercase, join by one
space. -/
def to_sentence_case (name : String) : String :=
  if name = "" then name else
    let words := splitWs name.data
    let fixed := words.map (fun w =>
      if w.map upChar = w ∨ w.map lowChar = w then pyTitle w else w)
    ⟨(fixed.map (fun w => w ++ [' '])).flatten.dropLast⟩

/-- Separators tried by `clean_paint_name` (ak_paint_scraper.py:350). -/
def cpnSeps : List (List Char) :=
  [" – ".data, "- ".data, " - ".data, " — ".data, "— ".data]

/-- Suffix words that cause the dash suffix to be stripped
(ak_paint_scraper.py:356-361). -/
def stripSuffixWords : List String :=
  ["color", "gen", "shade", "ink", "wash", "marker", "real",
   "figures", "afv", "air",
   "standard", "intense", "metallic", "pastel", "auxiliary",
   "efecto", "lino", "wargame"]

/-- Index of the last occurrence of `sep` in `l` (Python `str.rsplit(sep, 1)`
splits at this position). -/
def lastIndexOfAux (sep : List Char) : Nat → List Char → Option Nat → Option Nat
  | _, [], best => best
  | i, c :: t, best =>
    lastIndexOfAux sep (i + 1) t
      (if startsWithChars sep (c :: t) then some i else best)

/-- Index of the last occurrence of `sep` in `l`. -/
def lastIndexOf (sep l : List Char) : Option Nat :=
  lastIndexOfAux sep 0 l none

/-- One `for sep in [...]` iteration of `clean_paint_name`: strip the part
after the last occurrence of the first separator whose suffix contains a
known range/category word. -/
def cpnLoop (suffixWords : List String) (name : List Char) :
    List (List Char) → List Char
  | [] => name
  | sep :: rest =>
    if containsAux sep name then
      match lastIndexOf sep name with
      | some i =>
        let suffix := ((name.drop (i + sep.length)).map lowChar)
        if suffixWords.any (fun w => containsAux w.data suffix) then
          stripWs (name.take i)
        else
          cpnLoop suffixWords name rest
      | none => cpnLoop suffixWords name rest
    else
      cpnLoop suffixWords name rest

/-- Matcher for the regex `\s*\(\d+\s*ml\)\s*$` (case-insensitive) applied
to the whole remaining string. -/
def matchSizeParen (l : List Char) : Bool :=
  let l1 := l.dropWhile isWsChar
  match l1 with
  | '(' :: l2 =>
    let ds := l2.takeWhile isDigitChar
    !ds.isEmpty &&
      (match (l2.drop ds.length).dropWhile isWsChar with
       | m :: el :: ')' :: l4 =>
         (m == 'm' || m == 'M') && (el == 'l' || el == 'L') && l4.all isWsChar
       | _ => false)
  | _ => false

/-- Matcher for the regex `\s+\d+\s*ml\s*$` (case-insensitive) applied to
the whole remaining string. -/
def matchSizeBare (l : List Char) : Bool :=
  let ws := l.takeWhile isWsChar
  !ws.isEmpty &&
    (let l1 := l.drop ws.length
     let ds := l1.takeWhile isDigitChar
     !ds.isEmpty &&
       (match (l1.drop ds.length).dropWhile isWsChar with
        | m :: el :: l4 =>
          (m == 'm' || m == 'M') && (el == 'l' || el == 'L') && l4.all isWsChar
        | _ => false))

/-- First index at which `pat` matches the rest of the list. -/
def firstMatchIdxAux (pat : List Char → Bool) : Nat → List Char → Option Nat
  | i, [] => if pat [] then some i else none
  | i, c :: t => if pat (c :: t) then some i else firstMatchIdxAux pat (i + 1) t

/-- `re.sub(pat-anchored-at-$, '', s)`: drop the suffix starting at the
leftmost position where the `$`-anchored pattern matches. -/
def removeSuffixPat (pat : List Char → Bool) (l : List Char) : List Char :=
  match firstMatchIdxAux pat 0 l with
  | some i => l.take i
  | none => l

/-- `clean_paint_name` (ak_paint_scraper.py:342-368). -/
def clean_paint_name (name : String) : String :=
  if name = "" then name else
    let n1 := cpnLoop stripSuffixWords name.data cpnSeps
    let n2 := stripWs (removeSuffixPat matchSizeParen n1)
    let n3 := stripWs (removeSuffixPat matchSizeBare n2)
    ⟨n3⟩

/-- Raw scraped AK record (the dicts built by `extract_paints_from_page`
and decorated by `scrape_color_range`).  `sku` models `get('sku', '')`;
optional fields model keys that may be absent or `None`. -/
structure Rec where
  title : Option String
  sku : String
  hex : Option String
  product_url : Option String
  category : Option String
  paint_type : Option String
deriving DecidableEq

/-- The word-boundary test of Python's `\b` before a position: the
previous character is absent or not a word character. -/
def atBoundary : Option Char → Bool
  | none => true
  | some c => ¬ isWordChar c

/-- Whether `\bmedium\s+(for|gen|paint)` matches starting exactly here. -/
def mediumHere (l : List Char) : Bool :=
  startsWithChars "medium".data l ∧
    (let rest := l.drop 6
     let sp := rest.takeWhile isWsChar
     sp ≠ [] ∧
       (let r2 := rest.drop sp.length
        startsWithChars "for".data r2 ∨ startsWithChars "gen".data r2 ∨
          startsWithChars "paint".data r2))

/-- Scan for `\bmedium\s+(for|gen|paint)` anywhere in the string. -/
def mediumScan : Option Char → List Char → Bool
  | _, [] => false
  | prev, c :: t =>
    (atBoundary prev ∧ mediumHere (c :: t)) ∨ mediumScan (some c) t

/-- `re.search(r'\bmedium\s+(for|gen|paint)|medium$', name)`
(ak_paint_scraper.py:125).  The second alternative has no `\b`, exactly as
in the source. -/
def mediumMatch (l : List Char) : Bool :=
  mediumScan none l ∨ endsWithChars "medium".data l

/-- `get_paint_type` (ak_paint_scraper.py:112-130). -/
def get_paint_type (p : Rec) (range_type : String) : String :=
  let name := lowerStr (p.title.getD "")
  if containsStr "varnish" name then "varnish"
  else if containsStr "thinner" name then "thinner"
  else if containsStr "primer" name then "primer"
  else if mediumMatch name.data then "technical"
  else if containsStr "metallic" name ∨ containsStr "metal" name then "metallic"
  else range_type

/-- Whether the (already uppercased) SKU fully matches one of the regex
alternatives `AK\d+`, `RCS\d+`, `RCM\d+`, `RC\d+`, `AKM\d+`. -/
def skuAlt (p : String) (s : List Char) : Bool :=
  startsWithChars p.data s ∧
    (let rest := s.drop p.length
     rest ≠ [] ∧ rest.all isDigitChar)

/-- `re.match(r'^(AK\d+|RCS\d+|RCM\d+|RC\d+|AKM\d+)$', sku, re.IGNORECASE)`
on the uppercased SKU (ak_paint_scraper.py:376). -/
def validSku (s : List Char) : Bool :=
  skuAlt "AK" s ∨ skuAlt "RCS" s ∨ skuAlt "RCM" s ∨ skuAlt "RC" s ∨
    skuAlt "AKM" s

/-- `is_paint_product` (ak_paint_scraper.py:371-383); the cached set-SKU
exclusion list (`_SET_SKUS_CACHE`, a network-fetched collaborator) is
passed explicitly. -/
def is_paint_product (setSkus : List String) (p : Rec) : Bool :=
  let sku := upperStr p.sku
  validSku sku.data ∧ ¬ (p.sku ≠ "" ∧ setSkus.contains (upperStr p.sku))

/-- `dedupe_by_name` (ak_paint_scraper.py:395-411): drop later records
whose (raw) SKU was already seen; records without a SKU are always kept. -/
def dedupe_by_name : List Rec → List String → List Rec
  | [], _ => []
  | p :: ps, seen =>
    if p.sku ≠ "" ∧ seen.contains p.sku then
      dedupe_by_name ps seen
    else if p.sku ≠ "" then
      p :: dedupe_by_name ps (p.sku :: seen)
    else
      p :: dedupe_by_name ps seen

/-- A catalogue entry as written by `generate_catalogue`
(ak_paint_scraper.py:871-887).  The constant sub-objects `brandData = {}`
and `impcat = {layerId: null, shadeId: null}` carry no varying data and
are omitted. -/
structure Entry where
  brand : String
  category : String
  discontinued : Bool
  hex : Option String
  id : String
  name : Option String
  range : String
  sku : String
  type : String
  url : Option String
deriving DecidableEq

/-- Name fallback from the product URL (ak_paint_scraper.py:861-865):
last path segment, dashes to spaces, `str.title()`. -/
def nameFromUrl (url : String) : String :=
  let trimmed := (url.data.reverse.dropWhile (fun c => c = '/')).reverse
  let segs := (⟨trimmed⟩ : String).splitOn "/"
  ⟨pyTitle (((segs.getLast? ).getD "").data.map
    (fun c => if c = '-' then ' ' else c))⟩

/-- The name computation of `generate_catalogue`
(ak_paint_scraper.py:859-869). -/
def entryName (p : Rec) : Option String :=
  let name :=
    match p.title with
    | some t => if t ≠ "" then some t else
        (match p.product_url with
         | some u => if u ≠ "" then some (nameFromUrl u) else none
         | none => none)
    | none =>
        (match p.product_url with
         | some u => if u ≠ "" then some (nameFromUrl u) else none
         | none => none)
  match name with
  | some n => if n ≠ "" then some (clean_paint_name (to_sentence_case n)) else name
  | none => none

/-- Build the catalogue entry for one record (ak_paint_scraper.py:871-887);
`sku_clean` is the normalized SKU. -/
def entryOf (p : Rec) (range_name : String) (sku_clean : String) : Entry :=
  { brand := "AK Interactive"
    category := p.category.getD ""
    discontinued := false
    hex := p.hex
    id := "ak-interactive-" ++ lowerStr sku_clean
    name := entryName p
    range := range_name
    sku := sku_clean
    type := p.paint_type.getD ""
    url := p.product_url }

/-- Category upgrade applied to an already-catalogued duplicate
(ak_paint_scraper.py:849-857): replace a `"General"` category by a later
duplicate's more specific one. -/
def upgradeCategory (e : Entry) (newCat : String) : Entry :=
  if e.category = "General" ∧ newCat ≠ "" ∧ newCat ≠ "General" then
    { e with category := newCat }
  else e

/-- The accumulation loop of `generate_catalogue`
(ak_paint_scraper.py:840-889).  `seen` models the Python dict
`seen_skus : sku -> index`; keys are inserted only when absent, so
association-list lookup agrees with dict lookup. -/
def genLoop (range_name : String) :
    List Rec → List (String × Nat) → List Entry → List Entry
  | [], _, cat => cat
  | p :: ps, seen, cat =>
    if p.sku = "" then genLoop range_name ps seen cat
    else
      let k := normalize_sku p.sku
      match lookupA seen k with
      | some i =>
        let cat' :=
          match cat[i]? with
          | some e => cat.set i (upgradeCategory e ((p.category).getD ""))
          | none => cat
        genLoop range_name ps seen cat'
      | none =>
        genLoop range_name ps ((k, cat.length) :: seen)
          (cat ++ [entryOf p range_name k])

/-- Ordering used by `catalogue.sort(key=lambda x: x['sku'])`. -/
def skuLe (a b : Entry) : Prop := a.sku ≤ b.sku

instance : DecidableRel skuLe := fun a b =>
  decidable_of_iff (a.sku.toList ≤ b.sku.toList) String.le_iff_toList_le.symm

instance : IsTotal Entry skuLe := ⟨fun a b => le_total a.sku b.sku⟩

instance : IsTrans Entry skuLe := ⟨fun _ _ _ h1 h2 => le_trans h1 h2⟩

/-- `generate_catalogue` (ak_paint_scraper.py:835-893).  Python's
`list.sort` is modelled by `List.insertionSort`; the normalized SKU keys
of distinct entries are pairwise distinct (proved below), so any correct
sort produces the same list. -/
def generate_catalogue (scraped : List Rec) (range_name : String) :
    List Entry :=
  List.insertionSort skuLe (genLoop range_name scraped [] [])

/-! ### Merge engines -/

/-- A catalogue file: either a flat list of entries or the
`{range, name, paints: [...]}` wrapper; both shapes are accepted by
`update_existing_json` (ak_paint_scraper.py:814-821) and
`batch_update_json_files` (ak_paint_scraper.py:929-936). -/
inductive Catalogue where
  | flat (paints : List Entry) : Catalogue
  | wrapped (range : String) (name : String) (paints : List Entry) : Catalogue
deriving DecidableEq

/-- The paint list held by a catalogue of either shape. -/
def Catalogue.paints : Catalogue → List Entry
  | .flat l => l
  | .wrapped _ _ l => l

/-- Rebuild a catalogue of the same shape with a new paint list. -/
def Catalogue.withPaints : Catalogue → List Entry → Catalogue
  | .flat _, l => .flat l
  | .wrapped r n _, l => .wrapped r n l

/-- The `sku_to_hex` dict of `update_existing_json`
(ak_paint_scraper.py:809-812): normalized SKU of every record with a
truthy sku and hex, mapped to that hex.  Entries are consed at the front
so that lookup sees the latest insertion, as dict assignment does. -/
def skuToHex (scraped : List Rec) : List (String × String) :=
  scraped.foldl
    (fun m p =>
      match p.hex with
      | some h => if p.sku ≠ "" ∧ h ≠ "" then (normalize_sku p.sku, h) :: m else m
      | none => m)
    []

/-- The per-entry update of `update_existing_json`
(ak_paint_scraper.py:825-829): on a SKU match the hex is overwritten and
the update is counted unconditionally. -/
def updEntry (m : List (String × String)) (e : Entry) : Entry × Nat :=
  match lookupA m (normalize_sku e.sku) with
  | some h => ({ e with hex := some h }, 1)
  | none => (e, 0)

/-- Fold of `updEntry` over a paint list, summing the update count. -/
def updList (m : List (String × String)) : List Entry → List Entry × Nat
  | [] => ([], 0)
  | e :: es =>
    let r := updEntry m e
    let rest := updList m es
    (r.1 :: rest.1, r.2 + rest.2)

/-- `update_existing_json` (ak_paint_scraper.py:803-832), restricted to
the pure merge (file I/O stripped): returns the updated catalogue of the
same shape together with the reported `updated` count. -/
def update_existing_json (scraped : List Rec) (c : Catalogue) :
    Catalogue × Nat :=
  let r := updList (skuToHex scraped) c.paints
  (c.withPaints r.1, r.2)

/-- One step of the master-lookup construction of
`batch_update_json_files` (ak_paint_scraper.py:899-911): the pair of the
`sku_to_data` dict (later records shadow earlier ones) and the
`name_to_data` dict (a name key is inserted only when absent). -/
def buildMapsStep (m : List (String × Rec) × List (String × Rec)) (p : Rec) :
    List (String × Rec) × List (String × Rec) :=
  match p.hex with
  | some h =>
    if p.sku ≠ "" ∧ h ≠ "" then
      let s' := (normalize_sku p.sku, p) :: m.1
      let nn := normalize_name p.title
      let n' := if nn ≠ "" ∧ lookupA m.2 nn = none then (nn, p) :: m.2 else m.2
      (s', n')
    else m
  | none => m

/-- The master `sku_to_data` / `name_to_data` lookups of
`batch_update_json_files` (ak_paint_scraper.py:899-911). -/
def buildMaps (scraped : List Rec) :
    List (String × Rec) × List (String × Rec) :=
  scraped.foldl buildMapsStep ([], [])

/-- The per-entry reconciliation of `batch_update_json_files`
(ak_paint_scraper.py:938-976).  Returns the updated entry, whether it was
counted as updated (`changed`), and whether a SKU change was counted. -/
def bmEntry (smap nmap : List (String × Rec)) (e : Entry) :
    Entry × Bool × Bool :=
  match lookupA smap (normalize_sku e.sku) with
  | some m =>
    -- SKU match: refresh the hex only.
    (({ e with hex := m.hex }), e.hex ≠ m.hex, false)
  | none =>
    let nn := normalize_name e.name
    match (if nn ≠ "" then lookupA nmap nn else none) with
    | some m =>
      let hexChanged := e.hex ≠ m.hex
      let e1 := { e with hex := m.hex }
      if e.sku ≠ m.sku ∧ m.sku ≠ "" then
        let e2 :=
          { e1 with
            sku := m.sku
            url := if optTruthy m.product_url then m.product_url else e1.url }
        (e2, true, true)
      else
        (e1, hexChanged, false)
    | none => (e, false, false)

/-- Fold of `bmEntry` over a paint list, summing the `updated` and
`sku_changes` counters as the source loop does; the diagnostic
`not_found` list (only printed) is not modelled. -/
def bmList (smap nmap : List (String × Rec)) :
    List Entry → List Entry × Nat × Nat
  | [] => ([], 0, 0)
  | e :: es =>
    let r := bmEntry smap nmap e
    let rest := bmList smap nmap es
    (r.1 :: rest.1,
      (if r.2.1 then 1 else 0) + rest.2.1,
      (if r.2.2 then 1 else 0) + rest.2.2)

/-- The per-file merge of `batch_update_json_files`
(ak_paint_scraper.py:920-988) on one catalogue of either shape: the
updated catalogue, the `updated` count and the `sku_changes` count. -/
def batchMergeFile (scraped : List Rec) (c : Catalogue) :
    Catalogue × Nat × Nat :=
  let maps := buildMaps scraped
  let r := bmList maps.1 maps.2 c.paints
  (c.withPaints r.1, r.2)

/-- `batch_update_json_files` over a whole directory: each file is merged
independently against the same master lookups. -/
def batch_update_json_files (scraped : List Rec) (files : List Catalogue) :
    List (Catalogue × Nat × Nat) :=
  files.map (batchMergeFile scraped)

/-! ### Paginated scrape loop -/

/-- What one fetched-and-parsed listing page provides to
`scrape_color_range`: the raw product items extracted by
`extract_paints_from_page` and the result of `has_next_page`. -/
structure Page where
  items : List Rec
  hasNext : Bool

/-- Category/type decoration applied to a kept record
(ak_paint_scraper.py:704-709); `category` and `rangeType` are
`get_category(color_range)` and `RANGE_TO_TYPE.get(color_range, '')`. -/
def decorate (category rangeType : String) (p : Rec) : Rec :=
  { p with category := some category
           paint_type := some (get_paint_type p rangeType) }

/-- The filter-then-dedupe pass applied to one page's raw items
(ak_paint_scraper.py:669-678). -/
def pageKept (setSkus : List String) (pg : Page) : List Rec :=
  dedupe_by_name (pg.items.filter (is_paint_product setSkus)) []

/-- The pagination loop of `scrape_color_range`
(ak_paint_scraper.py:652-724) with network collaborators abstracted:
`site` yields the parsed page for each page number, `sampler` is the
(parallel) color-sampling pass over a page's kept records, `setSkus` is
the set-SKU exclusion cache.  Fetch errors (which also break the loop)
are outside the model. -/
def scrapeLoop (site : Nat → Page) (sampler : Rec → Rec)
    (setSkus : List String) (category rangeType : String)
    (page : Nat) (acc : List Rec) : List Rec :=
  if h : page ≤ 50 then
    let pg := site page
    let beforeFilter := pg.items.length
    let kept := pageKept setSkus pg
    if beforeFilter = 0 then acc
    else
      let acc' :=
        if kept ≠ [] then
          acc ++ (kept.map sampler).map (decorate category rangeType)
        else acc
      if pg.hasNext then
        scrapeLoop site sampler setSkus category rangeType (page + 1) acc'
      else acc'
  else acc
termination_by 51 - page
decreasing_by omega

/-- `scrape_color_range` (ak_paint_scraper.py:652-724), pagination core. -/
def scrape_color_range (site : Nat → Page) (sampler : Rec → Rec)
    (setSkus : List String) (category rangeType : String) : List Rec :=
  scrapeLoop site sampler setSkus category rangeType 1 []

end AK

/-! ## Vallejo (`vallejo/vallejo_paint_scraper.py`) -/

namespace Vallejo

/-- `normalize_sku` (vallejo_paint_scraper.py:200-212): remove whitespace
(`re.sub(r'\s+', '', sku).strip()` — the `strip` is a no-op after the
removal but is modelled anyway), then insert a dot into a bare 5-digit
SKU (`re.match(r'^\d{5}$', ...)`). -/
def normalize_sku (sku : String) : String :=
  if sku = "" then "" else
    let t := stripWs (removeWs sku.data)
    if t.length = 5 ∧ t.all isDigitChar then
      ⟨t.take 2 ++ '.' :: t.drop 2⟩
    else ⟨t⟩

/-- Filler words of Vallejo's `normalize_name`
(vallejo_paint_scraper.py:222). -/
def fillerWords : List String :=
  ["vallejo", "acrylic", "paint", "color", "colour"]

/-- `normalize_name` (vallejo_paint_scraper.py:215-224); identical to the
AK version except for the filler-word list. -/
def normalize_name (name : Option String) : String :=
  match name with
  | none => ""
  | some s =>
    if s = "" then "" else
      let cleaned := (lowerStr s).data.filter
        (fun c => isWordChar c ∨ isWsChar c)
      let toks := (AK.splitWs cleaned).filter
        (fun w => ¬ (fillerWords.map String.data).contains w)
      ⟨(toks.map (fun w => w ++ [' '])).flatten.dropLast⟩

/-- `TYPE_OVERRIDES` (vallejo_paint_scraper.py:151-172), in source order. -/
def typeOverrides : List (String × String) :=
  [("varnish", "varnish"), ("barniz", "varnish"),
   ("thinner", "thinner"), ("diluyente", "thinner"),
   ("primer", "primer"), ("imprimación", "primer"),
   ("medium", "technical"), ("retarder", "technical"),
   ("retardante", "technical"),
   ("glaze", "transparent"),
   ("ink", "ink"), ("tinta", "ink"),
   ("wash", "wash"),
   ("metallic", "metallic"), ("metal", "metallic"), ("chrome", "metallic"),
   ("gold", "metallic"), ("silver", "metallic"), ("copper", "metallic"),
   ("bronze", "metallic")]

/-- The keyword loop of `get_paint_type`
(vallejo_paint_scraper.py:262-271): a matching metallic keyword with a
non-metallic default only fires when the name is clearly metallic,
otherwise the loop continues with the next keyword. -/
def overrideLoop (name : String) (defaultType : String) :
    List (String × String) → Option String
  | [] => none
  | (kw, pt) :: rest =>
    if containsStr kw name then
      if pt = "metallic" ∧ defaultType ≠ "metallic" then
        if containsStr "metallic" name ∨ containsStr "metal color" name ∨
            containsStr "liquid metal" name ∨ containsStr "chrome" name then
          some "metallic"
        else overrideLoop name defaultType rest
      else some pt
    else overrideLoop name defaultType rest

/-- Raw scraped Vallejo record (`extract_paints_from_page`,
vallejo_paint_scraper.py:311-380, plus the decorations added in
`scrape_range`). -/
structure Rec where
  title : Option String
  sku : String
  hex : Option String
  product_url : Option String
  paint_type : Option String
  range_name : Option String
deriving DecidableEq

/-- `get_paint_type` (vallejo_paint_scraper.py:258-273); the name is
`(paint.get('title') or paint.get('name', '')).lower()` and scraped
records carry no `name` key, so the fallback is `''`. -/
def get_paint_type (p : Rec) (defaultType : String) : String :=
  let name := lowerStr (p.title.getD "")
  (overrideLoop name defaultType typeOverrides).getD defaultType

/-- `EXCLUDE_KEYWORDS` (vallejo_paint_scraper.py:180-190). -/
def excludeKeywords : List String :=
  ["brush", "pincel", "guide", "guía", "cleaner", "limpiador",
   " set", "pack", "bundle", "kit", "book", "magazine", "revista",
   "full range", "combo", "collection", "colección", "colors set",
   "colours set", "paint set", "color set", "colour set", "range box",
   "case", "suitcase", "maleta", "all colors", "all colours",
   "complete range",
   "super pack", "display", "expositor", "stand", "rack",
   "airbrush", "aerógrafo", "compressor", "stencil", "plantilla",
   "tool", "herramienta", "knife", "cutter", "tweezer", "pinza",
   "scenery", "scenics", "grass", "hierba", "flock", "tuft"]

/-- `is_paint_product` (vallejo_paint_scraper.py:276-292): keyword
exclusion on the lowered title or product URL; the SKU-pattern check in
the source is a `pass`-only warning and rejects nothing. -/
def is_paint_product (p : Rec) : Bool :=
  let title := lowerStr (p.title.getD "")
  let url := lowerStr (p.product_url.getD "")
  ¬ excludeKeywords.any
      (fun kw => containsStr kw title ∨ containsStr kw url)

/-- A catalogue entry as written by Vallejo's `generate_catalogue`
(vallejo_paint_scraper.py:641-657); constant sub-objects omitted as for
AK. -/
structure Entry where
  brand : String
  category : String
  discontinued : Bool
  hex : Option String
  id : String
  name : Option String
  range : String
  sku : String
  type : String
  url : Option String
deriving DecidableEq

/-- Vallejo's `clean_paint_name` (vallejo_paint_scraper.py:240-255):
same shape as AK's with fewer separators and suffix words. -/
def clean_paint_name (name : String) : String :=
  if name = "" then name else
    let n1 := AK.cpnLoop ["color", "air", "metal", "xpress", "game", "model"]
      name.data [" – ".data, " - ".data, " — ".data]
    let n2 := stripWs (AK.removeSuffixPat AK.matchSizeParen n1)
    let n3 := stripWs (AK.removeSuffixPat AK.matchSizeBare n2)
    ⟨n3⟩

/-- The name computation of Vallejo's `generate_catalogue`
(vallejo_paint_scraper.py:631-639); `to_sentence_case`
(vallejo_paint_scraper.py:227-237) is line-identical to AK's and is
reused. -/
def entryName (p : Rec) : Option String :=
  let name :=
    match p.title with
    | some t => if t ≠ "" then some t else
        (match p.product_url with
         | some u => if u ≠ "" then some (AK.nameFromUrl u) else none
         | none => none)
    | none =>
        (match p.product_url with
         | some u => if u ≠ "" then some (AK.nameFromUrl u) else none
         | none => none)
  match name with
  | some n =>
    if n ≠ "" then some (clean_paint_name (AK.to_sentence_case n)) else name
  | none => none

/-- Build the catalogue entry for one record
(vallejo_paint_scraper.py:641-657). -/
def entryOf (p : Rec) (range_name : String) (sku_clean : String) : Entry :=
  { brand := "Vallejo"
    category := ""
    discontinued := false
    hex := p.hex
    id := "vallejo-" ++
      lowerStr ⟨sku_clean.data.map (fun c => if c = '.' then '-' else c)⟩
    name := entryName p
    range := (p.range_name).getD range_name
    sku := sku_clean
    type := (p.paint_type).getD "opaque"
    url := p.product_url }

/-- The accumulation loop of Vallejo's `generate_catalogue`
(vallejo_paint_scraper.py:619-659).  The Python `seen_skus` dict stores
an index that this version of the function never reads, so membership in
a key list models it exactly; duplicates are skipped outright. -/
def genLoop (range_name : String) :
    List Rec → List String → List Entry
  | [], _ => []
  | p :: ps, seen =>
    if p.sku = "" then genLoop range_name ps seen
    else
      let k := normalize_sku p.sku
      if seen.contains k then genLoop range_name ps seen
      else entryOf p range_name k :: genLoop range_name ps (k :: seen)

/-- Ordering used by `catalogue.sort(key=lambda x: x['sku'])`. -/
def skuLe (a b : Entry) : Prop := a.sku ≤ b.sku

instance : DecidableRel skuLe := fun a b =>
  decidable_of_iff (a.sku.toList ≤ b.sku.toList) String.le_iff_toList_le.symm

instance : IsTotal Entry skuLe := ⟨fun a b => le_total a.sku b.sku⟩

instance : IsTrans Entry skuLe := ⟨fun _ _ _ h1 h2 => le_trans h1 h2⟩

/-- `generate_catalogue` (vallejo_paint_scraper.py:614-663). -/
def generate_catalogue (scraped : List Rec) (range_name : String) :
    List Entry :=
  List.insertionSort skuLe (genLoop range_name scraped [])

/-- The record list that keeps only the first record per normalized SKU
(and drops records without a SKU).  This renders the specification's
"duplicates are suppressed, keeping the first-seen record"; it is a
spec-side definition used to compare against the source assembler. -/
def firstOccurrences : List Rec → List String → List Rec
  | [], _ => []
  | p :: ps, seen =>
    if p.sku = "" then firstOccurrences ps seen
    else
      let k := normalize_sku p.sku
      if seen.contains k then firstOccurrences ps seen
      else p :: firstOccurrences ps (k :: seen)

/-! ### Paginated scrape loop -/

/-- One fetched Vallejo listing page: extracted items and whether
`get_next_page_url` found a next link. -/
structure Page where
  items : List Rec
  hasNext : Bool

/-- Type/range decoration applied to kept records
(vallejo_paint_scraper.py:555-558). -/
def decorate (defaultType rangeStr : String) (p : Rec) : Rec :=
  { p with paint_type := some (get_paint_type p defaultType)
           range_name := some rangeStr }

/-- The normalize-SKUs, product-filter and per-range-exclusion pass
applied to one page's raw items (vallejo_paint_scraper.py:513-533). -/
def pageKept (exclusions : List String) (pg : Page) : List Rec :=
  let normalized := pg.items.map
    (fun p => if p.sku ≠ "" then { p with sku := normalize_sku p.sku } else p)
  (normalized.filter is_paint_product).filter
    (fun p => ¬ exclusions.contains p.sku)

/-- The pagination loop of `scrape_range`
(vallejo_paint_scraper.py:489-576): SKUs are normalized up front, the
product filter and the per-range SKU exclusions are applied, and —
unlike the AK loop — the loop stops when the page is empty *after*
filtering (`if not paints: break`).  The loop has no page cap, so a fuel
parameter bounds the recursion; `sampler` abstracts the parallel color
sampling. -/
def scrapeLoop (site : Nat → Page) (sampler : Rec → Rec)
    (exclusions : List String) (defaultType rangeStr : String) :
    Nat → Nat → List Rec → List Rec
  | 0, _, acc => acc
  | fuel + 1, page, acc =>
    let pg := site page
    let kept := pageKept exclusions pg
    if kept = [] then acc
    else
      let acc' := acc ++ (kept.map sampler).map (decorate defaultType rangeStr)
      if pg.hasNext then
        scrapeLoop site sampler exclusions defaultType rangeStr fuel (page + 1) acc'
      else acc'

/-- `scrape_range` (vallejo_paint_scraper.py:489-576), pagination core. -/
def scrape_range (site : Nat → Page) (sampler : Rec → Rec)
    (exclusions : List String) (defaultType rangeStr : String)
    (fuel : Nat) : List Rec :=
  scrapeLoop site sampler exclusions defaultType rangeStr fuel 1 []

end Vallejo

/-! ## Citadel (`games-workshop/citadel_paint_scraper.py`) -/

namespace Citadel

/-- Earliest run of 11 consecutive ASCII digits, as found by
`re.search(r'(\d{11})', sku)`. -/
def find11 : List Char → Option (List Char)
  | [] => none
  | c :: cs =>
    let cand := (c :: cs).take 11
    if cand.length = 11 ∧ cand.all isDigitChar then some cand
    else find11 cs

/-- `normalize_sku` (citadel_paint_scraper.py:157-163): extract the first
11-digit run, else remove whitespace. -/
def normalize_sku (sku : String) : String :=
  if sku = "" then "" else
    match find11 sku.data with
    | some d => ⟨d⟩
    | none => ⟨stripWs (removeWs sku.data)⟩

/-- `VARNISH_PAINTS` (citadel_paint_scraper.py:122-124). -/
def varnishPaints : List String :=
  ["'Ardcoat", "Ardcoat", "Stormshield", "Munitorum Varnish"]

/-- `THINNER_PAINTS` (citadel_paint_scraper.py:125-127). -/
def thinnerPaints : List String :=
  ["Lahmian Medium", "Contrast Medium", "Air Caste Thinner"]

/-- `TYPE_OVERRIDES` (citadel_paint_scraper.py:130-138), in source order. -/
def typeOverrides : List (String × String) :=
  [("varnish", "varnish"), ("thinner", "thinner"), ("medium", "thinner"),
   ("primer", "primer"), ("undercoat", "primer"),
   ("glaze", "transparent"), ("ink", "ink")]

/-- `METALLIC_RANGES` (citadel_paint_scraper.py:119). -/
def metallicRanges : List String :=
  ["Gold", "Silver", "Bronze", "Brass", "Copper"]

/-- The metallic name keywords of `get_paint_type`
(citadel_paint_scraper.py:203-208). -/
def metallicKeywords : List String :=
  ["gold", "silver", "brass", "bronze", "copper", "steel",
   "iron", "leadbelcher", "runefang", "stormhost", "retributor",
   "balthasar", "gehenna", "auric", "liberator", "sycorax",
   "canoptek", "runelord", "castellax", "hashut", "fulgurite",
   "skullcrusher", "brass scorpion", "ironbreaker", "necron compound",
   "golden griffon", "sigmarite", "thallax", "valdor"]

/-- Default type per category, from `CITADEL_CATEGORIES`
(citadel_paint_scraper.py:63-104). -/
def categoryTypes : List (String × String) :=
  [("Base", "opaque"), ("Layer", "opaque"), ("Shade", "wash"),
   ("Dry", "opaque"), ("Contrast", "contrast"), ("Technical", "technical"),
   ("Spray", "spray"), ("Air", "air")]

/-- `get_paint_type` (citadel_paint_scraper.py:178-214). -/
def get_paint_type (name : String) (category : String)
    (colourRange : Option String) : String :=
  if varnishPaints.contains name then "varnish"
  else if thinnerPaints.contains name then "thinner"
  else
    let nameLower := lowerStr name
    match typeOverrides.find? (fun kv => containsStr kv.1 nameLower) with
    | some kv => kv.2
    | none =>
      if (match colourRange with
          | some r => metallicRanges.contains r
          | none => false) then "metallic"
      else if metallicKeywords.any (fun kw => containsStr kw nameLower) then
        "metallic"
      else (lookupA categoryTypes category).getD "opaque"

/-- Raw Citadel record: one `hit` from the HAR file
(`extract_paints_from_har`) with the `_hex` decoration of
`sample_paint_color`.  `isAvailable` models `get('isAvailable', True)`
with the default already resolved. -/
structure Rec where
  name : Option String
  sku : String
  hex : Option String
  paintType : List String
  colourRange : Option String
  isAvailable : Bool
  slug : String
deriving DecidableEq

/-- A catalogue entry as written by Citadel's `generate_catalogue`
(citadel_paint_scraper.py:436-452); constant sub-objects omitted. -/
structure Entry where
  brand : String
  category : String
  discontinued : Bool
  hex : Option String
  id : String
  name : String
  range : String
  sku : String
  type : String
  url : String
deriving DecidableEq

/-- Python's `x or y` for optional strings (`category or 'Unknown'`). -/
def pyOr (x : Option String) (y : String) : String :=
  match x with
  | some s => if s ≠ "" then s else y
  | none => y

/-- Build the catalogue entry for one record
(citadel_paint_scraper.py:431-452). -/
def entryOf (p : Rec) (category : Option String) (sku : String) : Entry :=
  let name := p.name.getD "Unknown"
  let paintCategory :=
    match p.paintType.head? with
    | some c => c
    | none => pyOr category "Unknown"
  { brand := "Games Workshop"
    category := paintCategory
    discontinued := ¬ p.isAvailable
    hex := p.hex
    id := "citadel-" ++ sku
    name := name
    range := "Citadel"
    sku := sku
    type := get_paint_type name paintCategory p.colourRange
    url := "https://www.warhammer.com/en-GB/shop/" ++ p.slug }

/-- The accumulation loop of Citadel's `generate_catalogue`
(citadel_paint_scraper.py:421-454): skip entries whose *normalized* SKU
is empty, skip duplicates (the stored dict index is never read). -/
def genLoop (category : Option String) :
    List Rec → List String → List Entry
  | [], _ => []
  | p :: ps, seen =>
    let sku := normalize_sku p.sku
    if sku = "" then genLoop category ps seen
    else if seen.contains sku then genLoop category ps seen
    else entryOf p category sku :: genLoop category ps (sku :: seen)

/-- Ordering used by `catalogue.sort(key=lambda x: x['name'])`. -/
def nameLe (a b : Entry) : Prop := a.name ≤ b.name

instance : DecidableRel nameLe := fun a b =>
  decidable_of_iff (a.name.toList ≤ b.name.toList) String.le_iff_toList_le.symm

instance : IsTotal Entry nameLe := ⟨fun a b => le_total a.name b.name⟩

instance : IsTrans Entry nameLe := ⟨fun _ _ _ h1 h2 => le_trans h1 h2⟩

/-- `generate_catalogue` (citadel_paint_scraper.py:416-458).  Note that
this assembler sorts by *name*, not by SKU. -/
def generate_catalogue (scraped : List Rec) (category : Option String) :
    List Entry :=
  List.insertionSort nameLe (genLoop category scraped [])

/-! ### SVG color extraction (`extract_hex_from_svg`,
citadel_paint_scraper.py:228-282)

The function runs three regex strategies over the raw SVG text.  HTML/SVG
parsing is an external collaborator in the specification, so the document
is modelled by what those regexes can see: the optional pot/spray-scoped
rect fill captured by strategy 1, and the ordered list of hex-color
tokens in the text, each tagged with whether it is the fill of a `<rect>`
(strategy 2's matches, always 6 digits), the fill of some other element,
or a bare hex token (strategy 3 matches all of them). -/

/-- How a hex token occurs in the SVG text. -/
inductive TokKind where
  | rectFill : TokKind
  | otherFill : TokKind
  | bare : TokKind
deriving DecidableEq

/-- One hex-color token: its kind and its digits (3 or 6 hex digits,
without the `#`). -/
structure Tok where
  kind : TokKind
  digits : String
deriving DecidableEq

/-- An SVG document as seen by the three regex strategies. -/
structure SvgDoc where
  potFill : Option String
  toks : List Tok
deriving DecidableEq

/-- Normalize a 3-digit hex color to 6 digits and uppercase
(citadel_paint_scraper.py:253-259). -/
def norm36 (s : String) : String :=
  let c := s.data
  let c6 := if c.length = 3 then (c.map (fun d => [d, d])).flatten else c
  ⟨c6.map upChar⟩

/-- The ignore set of UI colors (citadel_paint_scraper.py:265-271). -/
def ignoreColors : List String :=
  ["FFFFFF", "FEFEFE", "FDFDFD", "FCFCFC", "FAFAFA",
   "000000", "010101", "020202", "030303",
   "F5F5F5", "EFEFEF", "E0E0E0", "D0D0D0", "C0C0C0",
   "808080", "888888", "999999", "AAAAAA", "B0B0B0",
   "292929", "333333", "444444", "555555", "666666", "1A1A1A"]

/-- `Counter` items in first-occurrence order with their counts. -/
def countsList (l : List String) : List (String × Nat) :=
  (firstDedup l).map (fun c => (c, l.count c))

/-- Descending-by-count order for `Counter.most_common` (ties keep
first-occurrence order; `insertionSort` with this relation is stable in
exactly the same way as Python's `sorted(..., reverse=True)`). -/
def countGe (a b : String × Nat) : Prop := b.2 ≤ a.2

instance : DecidableRel countGe := fun a b => Nat.decLe b.2 a.2

instance : IsTotal (String × Nat) countGe := ⟨fun a b => le_total b.2 a.2⟩

instance : IsTrans (String × Nat) countGe :=
  ⟨fun _ _ _ h1 h2 => le_trans h2 h1⟩

/-- `Counter(normalized).most_common()`. -/
def mostCommon (l : List String) : List (String × Nat) :=
  List.insertionSort countGe (countsList l)

/-- Strategy 2's matches: the fill colors of `<rect>` elements
(citadel_paint_scraper.py:242-244). -/
def rectFills (d : SvgDoc) : List String :=
  (d.toks.filter (fun t => t.kind = TokKind.rectFill)).map
    (fun t => t.digits)

/-- Strategy 3's matches: every hex token in the document
(citadel_paint_scraper.py:246-248). -/
def allTokens (d : SvgDoc) : List String :=
  d.toks.map (fun t => t.digits)

/-- `rect_matches or all_matches`, normalized
(citadel_paint_scraper.py:253-259): the colors that are frequency
counted — the rect fills when any exist, otherwise every hex token. -/
def chosenColors (d : SvgDoc) : List String :=
  (if rectFills d ≠ [] then rectFills d else allTokens d).map norm36

/-- `extract_hex_from_svg` (citadel_paint_scraper.py:228-282). -/
def extract_hex_from_svg (d : SvgDoc) : Option String :=
  -- Strategy 1: rect fill inside the pot/spray clip-path group.
  match d.potFill with
  | some s => some ("#" ++ upperStr s)
  | none =>
    if allTokens d = [] ∧ rectFills d = [] then none
    else
      match (mostCommon (chosenColors d)).find?
          (fun p => ¬ ignoreColors.contains p.1) with
      | some p => some ("#" ++ p.1)
      | none =>
        match (mostCommon (chosenColors d)).head? with
        | some p => some ("#" ++ p.1)
        | none => none

/-- The extractor as described word-for-word by the specification claim:
prefer the pot/spray-scoped rect fill, otherwise frequency-count *all
fill colors* (rect or not, but only fills), return the most frequent one
outside the ignore set, fall back to the single most frequent, and
return `null` only when no colors were found.  Spec-side definition,
used only to compare against `extract_hex_from_svg`. -/
def extractHexClaim (d : SvgDoc) : Option String :=
  match d.potFill with
  | some s => some ("#" ++ upperStr s)
  | none =>
    let fills := (d.toks.filter (fun t => t.kind ≠ TokKind.bare)).map
      (fun t => t.digits)
    if fills = [] then none
    else
      let mc := mostCommon (fills.map norm36)
      match mc.find? (fun p => ¬ ignoreColors.contains p.1) with
      | some p => some ("#" ++ p.1)
      | none =>
        match mc.head? with
        | some p => some ("#" ++ p.1)
        | none => none

end Citadel

/-! ## Image color sampler (`sample_color_from_image`,
ak_paint_scraper.py:522-635)

The network fetch and PIL decode are external collaborators; the model
starts from the decoded RGB bitmap.  The `except` clause that returns
`None` fires only on fetch/decode exceptions, which are outside this pure
core — the core itself always produces a hex string.  Python floats are
modelled by `ℚ`: the gate comparisons `(r+g+b)/3 > 245` and `< 10` are
exact in both arithmetics, and no theorem below depends on how score ties
between candidates are broken. -/

namespace Sampler

/-- A decoded RGB bitmap: dimensions plus per-pixel channel lookup. -/
structure Img where
  width : Nat
  height : Nat
  px : Nat → Nat → Nat × Nat × Nat

/-- Clamp a (possibly negative) coordinate into `[0, bound-1]`
(`max(0, min(v, bound - 1))`, ak_paint_scraper.py:599-600). -/
def clampc (v : Int) (bound : Nat) : Nat :=
  (max 0 (min v ((bound : Int) - 1))).toNat

/-- The sampling anchors for each range hint
(ak_paint_scraper.py:537-589). -/
def sampleRegions (rangeHint : String) (img : Img) : List (Nat × Nat) :=
  let w := img.width
  let h := img.height
  if rangeHint = "acrylic-wash" then
    [(245, 610), (200, 580), (280, 620), (220, 550), (260, 650)]
  else if rangeHint = "deep-shades" then
    [(w / 2, 4 * h / 5), (w / 2, 3 * h / 4), (w / 3, 4 * h / 5),
     (2 * w / 3, 4 * h / 5), (w / 2, 7 * h / 10)]
  else if rangeHint = "playmarkers" then
    [(4 * w / 5, h / 2), (7 * w / 8, h / 2), (4 * w / 5, 2 * h / 5),
     (7 * w / 8, 2 * h / 5), (4 * w / 5, 3 * h / 5), (7 * w / 8, 3 * h / 5)]
  else if rangeHint = "rc-markers" then
    [(w / 2, h / 3), (w / 2, h / 4), (w / 3, h / 3), (2 * w / 3, h / 3),
     (w / 2, h / 2)]
  else
    [(w / 2, h / 5), (w / 3, h / 5), (2 * w / 3, h / 5),
     (w / 2, h / 4), (w / 3, h / 4), (2 * w / 3, h / 4),
     (w / 2, h / 3), (w / 3, h / 3), (2 * w / 3, h / 3)]

/-- The strided neighborhood offsets `range(-5, 6, 2)`
(ak_paint_scraper.py:597-598). -/
def offs : List Int := [-5, -3, -1, 1, 3, 5]

/-- The 36 neighborhood samples around an anchor, in the source's
dx-major order. -/
def neighborhood (img : Img) (xy : Nat × Nat) : List (Nat × Nat × Nat) :=
  (offs.map (fun dx =>
    offs.map (fun dy =>
      img.px (clampc ((xy.1 : Int) + dx) img.width)
             (clampc ((xy.2 : Int) + dy) img.height)))).flatten

/-- Mean RGB over the neighborhood, with Python's `//` integer division
(ak_paint_scraper.py:603-605). -/
def avgColor (img : Img) (xy : Nat × Nat) : Nat × Nat × Nat :=
  let colors := neighborhood img xy
  ((colors.map (fun c => c.1)).sum / colors.length,
   (colors.map (fun c => c.2.1)).sum / colors.length,
   (colors.map (fun c => c.2.2)).sum / colors.length)

/-- `brightness = (r + g + b) / 3` (true division). -/
def brightness (c : Nat × Nat × Nat) : ℚ :=
  ((c.1 : ℚ) + c.2.1 + c.2.2) / 3

/-- The brightness gate `brightness > 245 or brightness < 10`
(ak_paint_scraper.py:613-614). -/
def gated (c : Nat × Nat × Nat) : Prop :=
  brightness c > 245 ∨ brightness c < 10

/-- The gate over `ℚ` coincides with the exact integer comparisons
`r+g+b > 735` and `r+g+b < 30` (this also shows the `ℚ` model agrees
with Python's float evaluation of the gate, where both comparisons are
likewise exact). -/
theorem gated_iff (c : Nat × Nat × Nat) :
    gated c ↔ 735 < c.1 + c.2.1 + c.2.2 ∨ c.1 + c.2.1 + c.2.2 < 30 := by
  have h1 : (245 < ((c.1 : ℚ) + c.2.1 + c.2.2) / 3) ↔
      (735 : ℚ) < (c.1 : ℚ) + c.2.1 + c.2.2 := by
    rw [lt_div_iff₀ (by norm_num)]
    constructor <;> intro h <;> linarith
  have h2 : (((c.1 : ℚ) + c.2.1 + c.2.2) / 3 < 10) ↔
      ((c.1 : ℚ) + c.2.1 + c.2.2) < 30 := by
    rw [div_lt_iff₀ (by norm_num)]
    constructor <;> intro h <;> linarith
  unfold gated brightness
  rw [gt_iff_lt, h1, h2]
  constructor
  · rintro (h | h)
    · left
      exact_mod_cast h
    · right
      exact_mod_cast h
  · rintro (h | h)
    · left
      exact_mod_cast h
    · right
      exact_mod_cast h

instance : DecidablePred gated := fun c =>
  decidable_of_iff _ (gated_iff c).symm

/-- Candidate score (ak_paint_scraper.py:607-617). -/
def score (c : Nat × Nat × Nat) : ℚ :=
  let maxC := max c.1 (max c.2.1 c.2.2)
  let minC := min c.1 (min c.2.1 c.2.2)
  let saturation : ℚ :=
    if maxC > 0 then ((maxC : ℚ) - (minC : ℚ)) / (max maxC 1 : Nat) else 0
  let brightnessPenalty := |brightness c - 127| / 127
  saturation * (1 - brightnessPenalty * 0.5)

/-- The best-candidate fold (ak_paint_scraper.py:591-621): skip gated
candidates, keep the strictly best score, starting from
`best_color = None, best_score = -1`. -/
def pick (img : Img) :
    List (Nat × Nat) → Option (Nat × Nat × Nat) × ℚ →
      Option (Nat × Nat × Nat) × ℚ
  | [], best => best
  | xy :: rest, best =>
    let c := avgColor img xy
    if gated c then pick img rest best
    else if score c > best.2 then pick img rest (some c, score c)
    else pick img rest best

/-- `"#{:02X}{:02X}{:02X}"` formatting of one channel. -/
def hexDigit (n : Nat) : Char :=
  (("0123456789ABCDEF".data).getD n '0')

/-- Two-uppercase-hex-digit rendering of a channel value `< 256`. -/
def hex2 (n : Nat) : String :=
  ⟨[hexDigit (n / 16 % 16), hexDigit (n % 16)]⟩

/-- `"#{:02X}{:02X}{:02X}".format(r, g, b)`. -/
def hexString (c : Nat × Nat × Nat) : String :=
  "#" ++ hex2 c.1 ++ hex2 c.2.1 ++ hex2 c.2.2

/-- The pure core of `sample_color_from_image`
(ak_paint_scraper.py:522-635): the best surviving candidate's average
color, or — when every candidate was rejected by the brightness gate —
the raw pixel at the fixed fallback anchor `(width // 2, height // 4)`
(ak_paint_scraper.py:629-631). -/
def sample_color_from_image (rangeHint : String) (img : Img) : String :=
  match (pick img (sampleRegions rangeHint img) (none, -1)).1 with
  | some c => hexString c
  | none => hexString (img.px (img.width / 2) (img.height / 4))

end Sampler

/-! ## Helper lemmas -/

theorem char_toNat_ofNat_lt (n : Nat) (h1 : n < 55296) :
    (Char.ofNat n).toNat = n := by
  simp [Char.ofNat, Nat.isValidChar, h1, Char.ofNatAux, Char.toNat,
    UInt32.toNat, BitVec.toNat_ofNatLt]

theorem upChar_idem (c : Char) : upChar (upChar c) = upChar c := by
  unfold upChar
  by_cases h : 97 ≤ c.toNat ∧ c.toNat ≤ 122
  · rw [if_pos h]
    have hn : c.toNat - 32 < 55296 := by omega
    rw [char_toNat_ofNat_lt (c.toNat - 32) hn, if_neg (by omega)]
  · rw [if_neg h, if_neg h]

theorem map_eq_self_of_mem {α : Type} {f : α → α} {l : List α}
    (h : ∀ x ∈ l, f x = x) : l.map f = l := by
  induction l with
  | nil => rfl
  | cons a t ih =>
    simp only [List.map_cons, h a (List.mem_cons_self a t)]
    rw [ih (fun x hx => h x (List.mem_cons_of_mem a hx))]

theorem filter_eq_self_of_mem {α : Type} {p : α → Bool} {l : List α}
    (h : ∀ x ∈ l, p x = true) : l.filter p = l :=
  List.filter_eq_self.mpr h

theorem dropWhile_eq_self_of_mem {α : Type} {p : α → Bool} {l : List α}
    (h : ∀ x ∈ l, p x = false) : l.dropWhile p = l := by
  cases l with
  | nil => rfl
  | cons a t =>
    rw [List.dropWhile_cons, if_neg]
    simp [h a (List.mem_cons_self a t)]

theorem stripWs_eq_self_of_mem {l : List Char}
    (h : ∀ x ∈ l, isWsChar x = false) : stripWs l = l := by
  unfold stripWs
  rw [dropWhile_eq_self_of_mem h,
    dropWhile_eq_self_of_mem (fun x hx => h x (List.mem_reverse.mp hx)),
    List.reverse_reverse]

theorem mem_removeWs_not_ws {l : List Char} {x : Char}
    (hx : x ∈ removeWs l) : isWsChar x = false := by
  have := List.of_mem_filter hx
  simpa using this

theorem removeWs_eq_self_of_mem {l : List Char}
    (h : ∀ x ∈ l, isWsChar x = false) : removeWs l = l := by
  unfold removeWs
  apply filter_eq_self_of_mem
  intro x hx
  simpa using h x hx

namespace AK

theorem normalize_sku_idem (s : String) :
    normalize_sku (normalize_sku s) = normalize_sku s := by
  unfold normalize_sku upperStr
  apply congrArg String.mk
  show removeWs ((removeWs (s.data.map upChar)).map upChar) =
    removeWs (s.data.map upChar)
  have hup : ∀ x ∈ removeWs (s.data.map upChar), upChar x = x := by
    intro x hx
    have hx' : x ∈ s.data.map upChar := List.mem_of_mem_filter hx
    obtain ⟨y, _, rfl⟩ := List.mem_map.mp hx'
    exact upChar_idem y
  rw [map_eq_self_of_mem hup]
  exact removeWs_eq_self_of_mem (fun x hx => mem_removeWs_not_ws hx)

end AK

namespace Vallejo

theorem normalize_sku_core (s : String) (hs : s ≠ "") :
    normalize_sku s =
      (let t := stripWs (removeWs s.data)
       if t.length = 5 ∧ t.all isDigitChar then
         (⟨t.take 2 ++ '.' :: t.drop 2⟩ : String)
       else ⟨t⟩) := by
  unfold normalize_sku
  rw [if_neg hs]

theorem normalize_sku_idem_v (s : String) :
    normalize_sku (normalize_sku s) = normalize_sku s := by
  by_cases hs : s = ""
  · subst hs
    rfl
  · rw [normalize_sku_core s hs]
    have hnows : ∀ x ∈ stripWs (removeWs s.data), isWsChar x = false := by
      intro x hx
      have h1 : x ∈ removeWs s.data := by
        unfold stripWs at hx
        have h2 := List.mem_reverse.mp hx
        have h3 := (List.dropWhile_sublist _).subset h2
        have h4 := List.mem_reverse.mp h3
        exact (List.dropWhile_sublist _).subset h4
      exact mem_removeWs_not_ws h1
    set t := stripWs (removeWs s.data) with ht
    by_cases hc : t.length = 5 ∧ t.all isDigitChar
    · rw [if_pos hc]
      set u := t.take 2 ++ '.' :: t.drop 2 with hu
      have hne : (⟨u⟩ : String) ≠ "" := by
        intro h
        have : u = [] := congrArg String.data h
        simp [hu] at this
      rw [normalize_sku_core _ hne]
      have hnows' : ∀ x ∈ u, isWsChar x = false := by
        intro x hx
        rw [hu] at hx
        rcases List.mem_append.mp hx with h1 | h1
        · exact hnows x (List.mem_of_mem_take h1)
        · rcases List.mem_cons.mp h1 with h2 | h2
          · subst h2
            rfl
          · exact hnows x (List.mem_of_mem_drop h2)
      have hid : removeWs u = u := removeWs_eq_self_of_mem hnows'
      have hlen : u.length = 6 := by
        rw [hu]
        simp
        omega
      simp only [String.data]
      rw [hid, stripWs_eq_self_of_mem hnows', if_neg (by
        intro hcon
        rw [hlen] at hcon
        exact absurd hcon.1 (by norm_num))]
    · rw [if_neg hc]
      have hne2 : (⟨t⟩ : String) ≠ "" ∨ t = [] := by
        by_cases h : t = []
        · exact Or.inr h
        · exact Or.inl (fun hcon => h (congrArg String.data hcon))
      rcases hne2 with h | h
      · rw [normalize_sku_core _ h]
        simp only [String.data]
        rw [removeWs_eq_self_of_mem hnows, stripWs_eq_self_of_mem hnows,
          if_neg hc]
      · rw [h]
        rfl

end Vallejo

namespace Citadel

theorem find11_shape {l : List Char} {d : List Char}
    (h : find11 l = some d) : d.length = 11 ∧ d.all isDigitChar := by
  induction l with
  | nil => simp [find11] at h
  | cons c cs ih =>
    rw [find11] at h
    split at h
    · rename_i hcond
      cases h
      exact hcond
    · exact ih h

theorem find11_self {d : List Char}
    (h : d.length = 11 ∧ d.all isDigitChar) : find11 d = some d := by
  cases d with
  | nil => simp at h
  | cons c cs =>
    rw [find11]
    have htake : (c :: cs).take 11 = c :: cs :=
      List.take_of_length_le (by omega)
    rw [if_pos (by rw [htake]; exact h)]
    rw [htake]

theorem normalize_sku_idem_cit (s : String)
    (hv : (find11 s.data).isSome) :
    normalize_sku (normalize_sku s) = normalize_sku s := by
  obtain ⟨d, hd⟩ := Option.isSome_iff_exists.mp hv
  have hs : s ≠ "" := by
    intro h
    subst h
    simp [find11] at hd
  have hshape := find11_shape hd
  unfold normalize_sku
  rw [if_neg hs, hd]
  have hne : (⟨d⟩ : String) ≠ "" := by
    intro h
    have : d = [] := congrArg String.data h
    rw [this] at hshape
    simp at hshape
  rw [if_neg hne]
  simp only [String.data]
  rw [find11_self hshape]

end Citadel

/-! ## Claim C8 -/

/-- C8: SKU normalization is a projection.  For AK Interactive
(uppercase and whitespace removal) and Vallejo (whitespace removal and
5-digit dot insertion) `normalize_sku` is idempotent on *every* string;
for Citadel (extraction of the first 11-digit run) it is idempotent on
every string containing an 11-digit run — in particular on every valid
Citadel SKU, which is an 11-digit number. -/
theorem c8_normalize_sku_projection :
    (∀ s : String, AK.normalize_sku (AK.normalize_sku s) = AK.normalize_sku s)
    ∧ (∀ s : String,
        Vallejo.normalize_sku (Vallejo.normalize_sku s) =
          Vallejo.normalize_sku s)
    ∧ ∀ s : String, (Citadel.find11 s.data).isSome →
        Citadel.normalize_sku (Citadel.normalize_sku s) =
          Citadel.normalize_sku s :=
  ⟨AK.normalize_sku_idem, Vallejo.normalize_sku_idem_v,
    Citadel.normalize_sku_idem_cit⟩

/-- Witness for C8 at concrete valid SKUs of each brand. -/
theorem c8_normalize_sku_projection_witness :
    AK.normalize_sku (AK.normalize_sku "ak 11126") =
        AK.normalize_sku "ak 11126"
    ∧ Vallejo.normalize_sku (Vallejo.normalize_sku "76109") =
        Vallejo.normalize_sku "76109"
    ∧ Citadel.normalize_sku (Citadel.normalize_sku "99189950001") =
        Citadel.normalize_sku "99189950001" :=
  ⟨c8_normalize_sku_projection.1 "ak 11126",
   c8_normalize_sku_projection.2.1 "76109",
   c8_normalize_sku_projection.2.2 "99189950001" (by decide)⟩

/-! ## Claim C6 -/

/-- C6 counterexample: the claim says a name containing "medium" only as
part of a color name (such as "Medium Blue") is never classified as
technical/thinner and gets the default type from its source
range/category.  Citadel's `get_paint_type` matches `'medium'` as a plain
substring (citadel_paint_scraper.py:193-196), so "Medium Blue" in the
"Layer" category (default type "opaque") is classified as "thinner";
Vallejo's does the same (vallejo_paint_scraper.py:262-271) and returns
"technical". -/
theorem c6_medium_blue_counterexample :
    Citadel.get_paint_type "Medium Blue" "Layer" none = "thinner"
    ∧ lookupA Citadel.categoryTypes "Layer" = some "opaque"
    ∧ Vallejo.get_paint_type
        ⟨some "Medium Blue", "", none, none, none, none⟩ "opaque" = "technical"
    ∧ ("thinner" : String) ≠ "opaque" := by
  refine ⟨rfl, rfl, rfl, ?_⟩
  decide

/-- C6 (amended): only AK's `get_paint_type` uses a regex that keeps
"medium" from matching inside a color name — `AK.get_paint_type` on
"Medium Blue" returns the default range type for every default, while
Citadel's and Vallejo's substring matching classify the same name as
"thinner" and "technical" respectively; explicit keyword matches (e.g.
"varnish") do take precedence over the default type in all three. -/
theorem c6_medium_override_amended :
    (∀ rangeType : String,
      AK.get_paint_type ⟨some "Medium Blue", "", none, none, none, none⟩
        rangeType = rangeType)
    ∧ (∀ rangeType : String,
      AK.get_paint_type ⟨some "Matt Varnish", "", none, none, none, none⟩
        rangeType = "varnish")
    ∧ (∀ rangeType : String,
      AK.get_paint_type ⟨some "Gen Medium For Acrylics", "", none, none,
        none, none⟩ rangeType = "technical")
    ∧ (∀ (category : String) (colourRange : Option String),
      Citadel.get_paint_type "Medium Blue" category colourRange = "thinner")
    ∧ (∀ defaultType : String,
      Vallejo.get_paint_type ⟨some "Medium Blue", "", none, none, none, none⟩
        defaultType = "technical") :=
  ⟨fun _ => rfl, fun _ => rfl, fun _ => rfl, fun _ _ => rfl, fun _ => rfl⟩

/-! ## Claim C3 -/

namespace AK

theorem upgradeCategory_sku (e : Entry) (c : String) :
    (upgradeCategory e c).sku = e.sku := by
  unfold upgradeCategory
  split <;> rfl

/-- Every SKU of the accumulation loop's output either was already in
the accumulator or is the normalization of the SKU of a record with a
non-empty raw SKU. -/
theorem genLoop_sku_origin (rn : String) :
    ∀ (ps : List Rec) (seen : List (String × Nat)) (cat : List Entry),
      ∀ e ∈ genLoop rn ps seen cat,
        e.sku ∈ cat.map (fun x => x.sku) ∨
          ∃ r ∈ ps, r.sku ≠ "" ∧ e.sku = normalize_sku r.sku := by
  intro ps
  induction ps with
  | nil =>
    intro seen cat e he
    exact Or.inl (List.mem_map_of_mem _ he)
  | cons p t ih =>
    intro seen cat e he
    rw [genLoop] at he
    by_cases hp : p.sku = ""
    · rw [if_pos hp] at he
      rcases ih seen cat e he with h | ⟨r, hr, hr2⟩
      · exact Or.inl h
      · exact Or.inr ⟨r, List.mem_cons_of_mem p hr, hr2⟩
    · rw [if_neg hp] at he
      rcases hm : lookupA seen (normalize_sku p.sku) with _ | i
      · simp only [hm] at he
        rcases ih _ _ e he with h | ⟨r, hr, hr2⟩
        · rcases List.mem_map.mp h with ⟨x, hx, hx2⟩
          rcases List.mem_append.mp hx with h1 | h1
          · exact Or.inl (hx2 ▸ List.mem_map_of_mem _ h1)
          · have : x = entryOf p rn (normalize_sku p.sku) := by
              simpa using h1
            exact Or.inr ⟨p, List.mem_cons_self p t, hp, by
              rw [← hx2, this]
              rfl⟩
        · exact Or.inr ⟨r, List.mem_cons_of_mem p hr, hr2⟩
      · simp only [hm] at he
        rcases hg : cat[i]? with _ | e0
        · simp only [hg] at he
          rcases ih _ _ e he with h | ⟨r, hr, hr2⟩
          · exact Or.inl h
          · exact Or.inr ⟨r, List.mem_cons_of_mem p hr, hr2⟩
        · simp only [hg] at he
          rcases ih _ _ e he with h | ⟨r, hr, hr2⟩
          · rcases List.mem_map.mp h with ⟨x, hx, hx2⟩
            rcases List.mem_or_eq_of_mem_set hx with h1 | h1
            · exact Or.inl (hx2 ▸ List.mem_map_of_mem _ h1)
            · subst h1
              rw [upgradeCategory_sku] at hx2
              have he0 : e0 ∈ cat := List.getElem?_mem hg
              exact Or.inl (hx2 ▸ List.mem_map_of_mem _ he0)
          · exact Or.inr ⟨r, List.mem_cons_of_mem p hr, hr2⟩

/-- Every entry of `generate_catalogue` carries a normalized SKU. -/
theorem generate_catalogue_sku_normalized (data : List Rec) (rn : String) :
    ∀ e ∈ generate_catalogue data rn, normalize_sku e.sku = e.sku := by
  intro e he
  rw [generate_catalogue, List.mem_insertionSort] at he
  rcases genLoop_sku_origin rn data [] [] e he with h | ⟨r, _, _, hr⟩
  · simp at h
  · rw [hr]
    exact normalize_sku_idem r.sku

end AK

namespace Vallejo

/-- Every SKU of the Vallejo accumulation loop's output is the
normalization of a record's non-empty raw SKU. -/
theorem genLoop_sku_origin_v (rn : String) :
    ∀ (ps : List Rec) (seen : List String),
      ∀ e ∈ genLoop rn ps seen,
        ∃ r ∈ ps, r.sku ≠ "" ∧ e.sku = normalize_sku r.sku := by
  intro ps
  induction ps with
  | nil =>
    intro seen e he
    simp [genLoop] at he
  | cons p t ih =>
    intro seen e he
    rw [genLoop] at he
    by_cases hp : p.sku = ""
    · rw [if_pos hp] at he
      obtain ⟨r, hr, hr2⟩ := ih seen e he
      exact ⟨r, List.mem_cons_of_mem p hr, hr2⟩
    · rw [if_neg hp] at he
      by_cases hm : (seen.contains (normalize_sku p.sku) : Bool)
      · rw [if_pos hm] at he
        obtain ⟨r, hr, hr2⟩ := ih seen e he
        exact ⟨r, List.mem_cons_of_mem p hr, hr2⟩
      · rw [if_neg hm] at he
        rcases List.mem_cons.mp he with h | h
        · exact ⟨p, List.mem_cons_self p t, hp, by rw [h]; rfl⟩
        · obtain ⟨r, hr, hr2⟩ := ih _ e h
          exact ⟨r, List.mem_cons_of_mem p hr, hr2⟩

/-- Every entry of Vallejo's `generate_catalogue` carries a normalized
SKU. -/
theorem generate_catalogue_sku_normalized_v (data : List Rec) (rn : String) :
    ∀ e ∈ generate_catalogue data rn, normalize_sku e.sku = e.sku := by
  intro e he
  rw [generate_catalogue, List.mem_insertionSort] at he
  obtain ⟨r, _, _, hr⟩ := genLoop_sku_origin_v rn data [] e he
  rw [hr]
  exact normalize_sku_idem_v r.sku

end Vallejo

/-- C3 counterexample: the claim says every brand's assembler returns
entries sorted by normalized SKU ascending, but Citadel's
`generate_catalogue` sorts by *name* (citadel_paint_scraper.py:456-457):
with "Abaddon Black"/SKU …002 and "Zandri Dust"/SKU …001 the output SKU
order is descending. -/
theorem c3_sorted_by_sku_counterexample :
    ((Citadel.generate_catalogue
        [⟨some "Abaddon Black", "99189950002", none, ["Base"], none, true, "a"⟩,
         ⟨some "Zandri Dust", "99189950001", none, ["Base"], none, true, "z"⟩]
        none).map (fun e => e.sku) = ["99189950002", "99189950001"])
    ∧ ¬ (("99189950002" : String) ≤ "99189950001") := by
  constructor
  · decide
  · rw [String.le_iff_toList_le]
    decide

/-- C3 (amended): the AK and Vallejo assemblers return their entries
sorted ascending (lexicographically) by SKU, and every output entry's
`sku` field is its own normalization, so the order is by normalized SKU;
the Citadel assembler instead returns entries sorted ascending by name.
Each assembler is a pure function of its input list, so its output is
deterministic. -/
theorem c3_assembler_sort_amended :
    (∀ (data : List AK.Rec) (rn : String),
      List.Sorted AK.skuLe (AK.generate_catalogue data rn)
      ∧ ∀ e ∈ AK.generate_catalogue data rn,
          AK.normalize_sku e.sku = e.sku)
    ∧ (∀ (data : List Vallejo.Rec) (rn : String),
      List.Sorted Vallejo.skuLe (Vallejo.generate_catalogue data rn)
      ∧ ∀ e ∈ Vallejo.generate_catalogue data rn,
          Vallejo.normalize_sku e.sku = e.sku)
    ∧ ∀ (data : List Citadel.Rec) (cat : Option String),
      List.Sorted Citadel.nameLe (Citadel.generate_catalogue data cat) :=
  ⟨fun data rn =>
    ⟨List.sorted_insertionSort AK.skuLe _,
     AK.generate_catalogue_sku_normalized data rn⟩,
   fun data rn =>
    ⟨List.sorted_insertionSort Vallejo.skuLe _,
     Vallejo.generate_catalogue_sku_normalized_v data rn⟩,
   fun _ _ => List.sorted_insertionSort Citadel.nameLe _⟩

/-! ## Claims C9 and C10 -/

theorem set_getElem_self {α : Type} :
    ∀ (l : List α) (i : Nat) (h : i < l.length), l.set i l[i] = l
  | _ :: _, 0, _ => rfl
  | a :: t, i + 1, h =>
    congrArg (fun x => a :: x)
      (set_getElem_self t i (by simpa using Nat.lt_of_succ_lt_succ h))

theorem lookupA_eq_none {α : Type} {m : List (String × α)} {k : String}
    (h : lookupA m k = none) : ∀ v, (k, v) ∉ m := by
  intro v hv
  unfold lookupA at h
  rcases hf : m.find? (fun p => p.1 = k) with _ | q
  · have := List.find?_eq_none.mp hf _ hv
    simp at this
  · rw [hf] at h
    simp at h

theorem contains_false_not_mem {α : Type} [BEq α] [LawfulBEq α]
    {l : List α} {a : α} (h : l.contains a = false) : a ∉ l := by
  intro hm
  rw [List.contains, List.elem_eq_mem] at h
  simp at h
  exact h hm

namespace AK

/-- Invariant tying the `seen_skus` dict of `generate_catalogue` to the
accumulated catalogue: every recorded index points at the entry holding
its key, the recorded keys are exactly the accumulated SKUs, and the
accumulated SKUs are pairwise distinct. -/
def SeenInv (seen : List (String × Nat)) (cat : List Entry) : Prop :=
  (∀ q ∈ seen, ∃ h : q.2 < cat.length, (cat.get ⟨q.2, h⟩).sku = q.1)
  ∧ (∀ k, (∃ i, (k, i) ∈ seen) ↔ k ∈ cat.map (fun e => e.sku))
  ∧ (cat.map (fun e => e.sku)).Nodup

theorem seenInv_preserved_set {seen : List (String × Nat)}
    {cat : List Entry} {i : Nat} {e0 : Entry} {c : String}
    (inv : SeenInv seen cat) (hg : cat[i]? = some e0) :
    SeenInv seen (cat.set i (upgradeCategory e0 c)) := by
  have hi : i < cat.length := by
    by_contra hcon
    rw [List.getElem?_eq_none (by omega)] at hg
    cases hg
  have he0 : e0 = cat[i] := by
    rw [List.getElem?_eq_getElem hi] at hg
    cases hg
    rfl
  have hi' : i < (cat.map (fun e => e.sku)).length := by simpa using hi
  have hmap : (cat.set i (upgradeCategory e0 c)).map (fun e => e.sku) =
      cat.map (fun e => e.sku) := by
    have h5 := set_getElem_self (cat.map (fun e => e.sku)) i hi'
    rw [List.getElem_map] at h5
    rw [List.map_set, upgradeCategory_sku, he0, h5]
  refine ⟨?_, ?_, ?_⟩
  · intro q hq
    obtain ⟨hlt, hsku⟩ := inv.1 q hq
    have hlt' : q.2 < (cat.set i (upgradeCategory e0 c)).length := by
      simpa using hlt
    refine ⟨hlt', ?_⟩
    rw [List.get_eq_getElem] at hsku ⊢
    rw [List.getElem_set]
    by_cases hqi : i = q.2
    · rw [if_pos hqi, upgradeCategory_sku, he0]
      subst hqi
      exact hsku
    · rw [if_neg hqi]
      exact hsku
  · intro k
    rw [hmap]
    exact inv.2.1 k
  · rw [hmap]
    exact inv.2.2

theorem seenInv_preserved_append {seen : List (String × Nat)}
    {cat : List Entry} {p : Rec} {rn : String}
    (inv : SeenInv seen cat)
    (hm : lookupA seen (normalize_sku p.sku) = none) :
    SeenInv ((normalize_sku p.sku, cat.length) :: seen)
      (cat ++ [entryOf p rn (normalize_sku p.sku)]) := by
  set k := normalize_sku p.sku with hk
  have hknot : k ∉ cat.map (fun e => e.sku) := by
    intro hcon
    obtain ⟨i, hi⟩ := (inv.2.1 k).mpr hcon
    exact lookupA_eq_none hm i hi
  refine ⟨?_, ?_, ?_⟩
  · intro q hq
    rcases List.mem_cons.mp hq with h | h
    · subst h
      refine ⟨by simp, ?_⟩
      rw [List.get_eq_getElem]
      rw [List.getElem_concat_length cat _ cat.length rfl]
      rfl
    · obtain ⟨hlt, hsku⟩ := inv.1 q h
      refine ⟨by simp; omega, ?_⟩
      rw [List.get_eq_getElem] at hsku ⊢
      rw [List.getElem_append_left hlt]
      exact hsku
  · intro k'
    constructor
    · rintro ⟨i, hi⟩
      rcases List.mem_cons.mp hi with h | h
      · have hk' : k' = k := congrArg Prod.fst h
        subst hk'
        simp only [List.map_append, List.mem_append]
        right
        simp only [List.map_cons, List.map_nil, List.mem_singleton]
        rfl
      · have := (inv.2.1 k').mp ⟨i, h⟩
        simp only [List.map_append, List.mem_append]
        exact Or.inl this
    · intro hmem
      simp only [List.map_append, List.mem_append] at hmem
      rcases hmem with h | h
      · obtain ⟨i, hi⟩ := (inv.2.1 k').mpr h
        exact ⟨i, List.mem_cons_of_mem _ hi⟩
      · simp at h
        subst h
        exact ⟨cat.length, List.mem_cons_self _ _⟩
  · rw [List.map_append]
    rw [List.nodup_append]
    refine ⟨inv.2.2, by simp, ?_⟩
    intro x hx
    simp only [List.map_cons, List.map_nil, List.mem_singleton]
    intro hcon
    subst hcon
    exact hknot hx

theorem genLoop_nodup (rn : String) :
    ∀ (ps : List Rec) (seen : List (String × Nat)) (cat : List Entry),
      SeenInv seen cat →
        ((genLoop rn ps seen cat).map (fun e => e.sku)).Nodup := by
  intro ps
  induction ps with
  | nil =>
    intro seen cat inv
    exact inv.2.2
  | cons p t ih =>
    intro seen cat inv
    rw [genLoop]
    by_cases hp : p.sku = ""
    · rw [if_pos hp]
      exact ih seen cat inv
    · rw [if_neg hp]
      rcases hm : lookupA seen (normalize_sku p.sku) with _ | i
      · simp only [hm]
        exact ih _ _ (seenInv_preserved_append inv hm)
      · simp only [hm]
        rcases hg : cat[i]? with _ | e0
        · simp only [hg]
          exact ih _ _ inv
        · simp only [hg]
          exact ih _ _ (seenInv_preserved_set inv hg)

/-- C9 AK part: no two entries of `generate_catalogue` share a
normalized SKU. -/
theorem generate_catalogue_nodup (data : List Rec) (rn : String) :
    ((generate_catalogue data rn).map
      (fun e => normalize_sku e.sku)).Nodup := by
  have h1 : (generate_catalogue data rn).map (fun e => normalize_sku e.sku) =
      (generate_catalogue data rn).map (fun e => e.sku) :=
    List.map_congr_left (generate_catalogue_sku_normalized data rn)
  rw [h1, generate_catalogue]
  have hperm : List.Perm
      ((List.insertionSort skuLe (genLoop rn data [] [])).map
        (fun e => e.sku))
      ((genLoop rn data [] []).map (fun e => e.sku)) :=
    (List.perm_insertionSort skuLe _).map _
  rw [hperm.nodup_iff]
  exact genLoop_nodup rn data [] []
    ⟨by simp, by simp, by simp⟩

end AK

namespace Vallejo

theorem genLoop_not_seen (rn : String) :
    ∀ (ps : List Rec) (seen : List String),
      ∀ e ∈ genLoop rn ps seen, seen.contains e.sku = false := by
  intro ps
  induction ps with
  | nil =>
    intro seen e he
    simp [genLoop] at he
  | cons p t ih =>
    intro seen e he
    rw [genLoop] at he
    by_cases hp : p.sku = ""
    · rw [if_pos hp] at he
      exact ih seen e he
    · rw [if_neg hp] at he
      by_cases hm : (seen.contains (normalize_sku p.sku) : Bool)
      · rw [if_pos hm] at he
        exact ih seen e he
      · rw [if_neg hm] at he
        rcases List.mem_cons.mp he with h | h
        · subst h
          simpa using hm
        · have := ih _ e h
          rcases hcontains : seen.contains e.sku with _ | _
          · rfl
          · exfalso
            have hmem : e.sku ∈ normalize_sku p.sku :: seen :=
              List.mem_cons_of_mem _ (by
                rw [List.contains, List.elem_eq_mem] at hcontains
                simpa using hcontains)
            exact contains_false_not_mem this hmem

theorem genLoop_nodup_v (rn : String) :
    ∀ (ps : List Rec) (seen : List String),
      ((genLoop rn ps seen).map (fun e => e.sku)).Nodup := by
  intro ps
  induction ps with
  | nil =>
    intro seen
    simp [genLoop]
  | cons p t ih =>
    intro seen
    rw [genLoop]
    by_cases hp : p.sku = ""
    · rw [if_pos hp]
      exact ih seen
    · rw [if_neg hp]
      by_cases hm : (seen.contains (normalize_sku p.sku) : Bool)
      · rw [if_pos hm]
        exact ih seen
      · rw [if_neg hm]
        simp only [List.map_cons, List.nodup_cons]
        refine ⟨?_, ih _⟩
        intro hcon
        obtain ⟨e, he, hesku⟩ := List.mem_map.mp hcon
        have := genLoop_not_seen rn t (normalize_sku p.sku :: seen) e he
        apply contains_false_not_mem this
        rw [hesku]
        exact List.mem_cons_self _ _

/-- C9 Vallejo part: no two entries of `generate_catalogue` share a
normalized SKU. -/
theorem generate_catalogue_nodup_v (data : List Rec) (rn : String) :
    ((generate_catalogue data rn).map
      (fun e => normalize_sku e.sku)).Nodup := by
  have h1 : (generate_catalogue data rn).map (fun e => normalize_sku e.sku) =
      (generate_catalogue data rn).map (fun e => e.sku) :=
    List.map_congr_left (generate_catalogue_sku_normalized_v data rn)
  rw [h1, generate_catalogue]
  have hperm : List.Perm
      ((List.insertionSort skuLe (genLoop rn data [])).map
        (fun e => e.sku))
      ((genLoop rn data []).map (fun e => e.sku)) :=
    (List.perm_insertionSort skuLe _).map _
  rw [hperm.nodup_iff]
  exact genLoop_nodup_v rn data []

/-- Dropping every record after the first with a given normalized SKU
does not change the Vallejo assembler's accumulation. -/
theorem genLoop_firstOccurrences (rn : String) :
    ∀ (ps : List Rec) (seen : List String),
      genLoop rn (firstOccurrences ps seen) seen = genLoop rn ps seen := by
  intro ps
  induction ps with
  | nil =>
    intro seen
    rfl
  | cons p t ih =>
    intro seen
    rw [firstOccurrences]
    by_cases hp : p.sku = ""
    · rw [if_pos hp, genLoop, if_pos hp]
      exact ih seen
    · rw [if_neg hp]
      by_cases hm : (seen.contains (normalize_sku p.sku) : Bool)
      · rw [if_pos hm, genLoop, if_neg hp, if_pos hm]
        exact ih seen
      · rw [if_neg hm]
        conv_rhs => rw [genLoop]
        rw [genLoop, if_neg hp, if_neg hm, if_neg hp, if_neg hm]
        rw [ih]

end Vallejo

namespace Citadel

theorem genLoop_sku_ne (cat : Option String) :
    ∀ (ps : List Rec) (seen : List String),
      ∀ e ∈ genLoop cat ps seen, e.sku ≠ "" := by
  intro ps
  induction ps with
  | nil =>
    intro seen e he
    simp [genLoop] at he
  | cons p t ih =>
    intro seen e he
    rw [genLoop] at he
    by_cases hp : normalize_sku p.sku = ""
    · rw [if_pos hp] at he
      exact ih seen e he
    · rw [if_neg hp] at he
      by_cases hm : (seen.contains (normalize_sku p.sku) : Bool)
      · rw [if_pos hm] at he
        exact ih seen e he
      · rw [if_neg hm] at he
        rcases List.mem_cons.mp he with h | h
        · subst h
          exact hp
        · exact ih _ e h

end Citadel

/-- C9 counterexample: the claim says duplicates after normalization are
suppressed "keeping the first-seen record", but AK's assembler lets a
later duplicate overwrite the kept entry's `category` when the first-seen
category is `"General"` (ak_paint_scraper.py:849-857): generating from
both records yields a different entry than generating from the first-seen
record alone. -/
theorem c9_first_seen_counterexample :
    ((AK.generate_catalogue
        [⟨some "A", "AK1", none, none, some "General", none⟩,
         ⟨some "A", "AK1", none, none, some "AFV", none⟩] "R").map
      (fun e => e.category) = ["AFV"])
    ∧ ((AK.generate_catalogue
        [⟨some "A", "AK1", none, none, some "General", none⟩] "R").map
      (fun e => e.category) = ["General"])
    ∧ AK.generate_catalogue
        [⟨some "A", "AK1", none, none, some "General", none⟩,
         ⟨some "A", "AK1", none, none, some "AFV", none⟩] "R" ≠
      AK.generate_catalogue
        [⟨some "A", "AK1", none, none, some "General", none⟩] "R" := by
  refine ⟨by decide, by decide, by decide⟩

/-- C9 (amended): in the AK and Vallejo assemblers no two output entries
share a normalized SKU, and later duplicates are suppressed; Vallejo
keeps exactly the entries of the first-seen records (generating from the
first occurrences gives the same catalogue), while AK keeps the
first-seen record's entry except that a later duplicate may upgrade its
`category` from `"General"` to a more specific one. -/
theorem c9_dedup_invariant_amended :
    (∀ (data : List AK.Rec) (rn : String),
      ((AK.generate_catalogue data rn).map
        (fun e => AK.normalize_sku e.sku)).Nodup)
    ∧ (∀ (data : List Vallejo.Rec) (rn : String),
      ((Vallejo.generate_catalogue data rn).map
        (fun e => Vallejo.normalize_sku e.sku)).Nodup)
    ∧ ∀ (data : List Vallejo.Rec) (rn : String),
      Vallejo.generate_catalogue data rn =
        Vallejo.generate_catalogue (Vallejo.firstOccurrences data []) rn :=
  ⟨AK.generate_catalogue_nodup, Vallejo.generate_catalogue_nodup_v,
   fun data rn => by
    unfold Vallejo.generate_catalogue
    rw [Vallejo.genLoop_firstOccurrences]⟩

/-- C10 counterexample: the claim says every output entry has a
non-empty `sku`, but AK's assembler guards on the *raw* SKU
(ak_paint_scraper.py:841-843), so a record whose SKU is a single space
(non-empty, hence not dropped) produces an entry whose normalized SKU is
the empty string. -/
theorem c10_nonempty_sku_counterexample :
    ((AK.generate_catalogue [⟨none, " ", none, none, none, none⟩] "R").map
      (fun e => e.sku) = [""])
    ∧ (" " : String) ≠ "" := by
  refine ⟨by decide, by decide⟩

/-- C10 (amended): every entry produced by the AK and Vallejo assemblers
comes from a record whose raw `sku` field is non-empty (records with a
missing or empty SKU are silently dropped and are never matched by name
or URL), and its `sku` is that record's normalized SKU — which is empty
exactly when the raw SKU consists of whitespace only; Citadel's
assembler instead guards on the *normalized* SKU, so its entries always
have a non-empty `sku`. -/
theorem c10_sku_guard_amended :
    (∀ (data : List AK.Rec) (rn : String),
      ∀ e ∈ AK.generate_catalogue data rn,
        ∃ r ∈ data, r.sku ≠ "" ∧ e.sku = AK.normalize_sku r.sku)
    ∧ (∀ (data : List Vallejo.Rec) (rn : String),
      ∀ e ∈ Vallejo.generate_catalogue data rn,
        ∃ r ∈ data, r.sku ≠ "" ∧ e.sku = Vallejo.normalize_sku r.sku)
    ∧ ∀ (data : List Citadel.Rec) (cat : Option String),
      ∀ e ∈ Citadel.generate_catalogue data cat, e.sku ≠ "" := by
  refine ⟨?_, ?_, ?_⟩
  · intro data rn e he
    rw [AK.generate_catalogue, List.mem_insertionSort] at he
    rcases AK.genLoop_sku_origin rn data [] [] e he with h | h
    · simp at h
    · exact h
  · intro data rn e he
    rw [Vallejo.generate_catalogue, List.mem_insertionSort] at he
    exact Vallejo.genLoop_sku_origin_v rn data [] e he
  · intro data cat e he
    rw [Citadel.generate_catalogue, List.mem_insertionSort] at he
    exact Citadel.genLoop_sku_ne cat data [] e he

/-! ## Claim C7 -/

/-- A three-page Vallejo listing: a paint on page 1, a page consisting
entirely of a non-paint product ("Xpress Paint Set") on page 2, and a
paint on page 3. -/
def vallejoExampleSite : Nat → Vallejo.Page := fun n =>
  if n = 1 then
    ⟨[⟨some "Dwarf Skin", "72402", none, some "u1", none, none⟩], true⟩
  else if n = 2 then
    ⟨[⟨some "Xpress Paint Set", "72999", none, some "u2", none, none⟩], true⟩
  else if n = 3 then
    ⟨[⟨some "Gory Red", "72403", none, some "u3", none, none⟩], false⟩
  else ⟨[], false⟩

/-- C7 counterexample: the claim says the pagination loop does not stop
merely because a page yields zero items after filtering, but Vallejo's
`scrape_range` breaks on `if not paints` *after* the product filter
(vallejo_paint_scraper.py:535-538): on a listing whose second page is
entirely non-paint products (raw item count 1, kept count 0) the loop
stops and the page-3 paint is never scraped. -/
theorem c7_pagination_counterexample :
    ((Vallejo.scrape_range vallejoExampleSite (fun p => p) []
        "contrast" "Xpress Color" 10).map (fun p => p.sku) = ["72.402"])
    ∧ (vallejoExampleSite 2).items ≠ []
    ∧ Vallejo.pageKept [] (vallejoExampleSite 2) = []
    ∧ (vallejoExampleSite 2).hasNext = true
    ∧ (vallejoExampleSite 3).items.map (fun p => p.sku) = ["72403"] := by
  refine ⟨by decide, by decide, by decide, by decide, by decide⟩

/-- C7 (amended): AK's `scrape_color_range` loop stops when a page
yields zero raw items before filtering and continues past a page whose
raw items are all filtered out (when a next page exists), exactly as the
claim says; Vallejo's `scrape_range` loop instead stops as soon as a
page is empty *after* filtering, so a page consisting entirely of
non-paint products terminates it. -/
theorem c7_pagination_stop_amended :
    (∀ (site : Nat → AK.Page) (sampler : AK.Rec → AK.Rec)
        (setSkus : List String) (category rangeType : String)
        (page : Nat) (acc : List AK.Rec),
      page ≤ 50 → (site page).items = [] →
        AK.scrapeLoop site sampler setSkus category rangeType page acc = acc)
    ∧ (∀ (site : Nat → AK.Page) (sampler : AK.Rec → AK.Rec)
        (setSkus : List String) (category rangeType : String)
        (page : Nat) (acc : List AK.Rec),
      page ≤ 50 → (site page).items ≠ [] →
        (site page).items.filter (AK.is_paint_product setSkus) = [] →
        (site page).hasNext = true →
        AK.scrapeLoop site sampler setSkus category rangeType page acc =
          AK.scrapeLoop site sampler setSkus category rangeType (page + 1)
            acc)
    ∧ ∀ (site : Nat → Vallejo.Page) (sampler : Vallejo.Rec → Vallejo.Rec)
        (exclusions : List String) (defaultType rangeStr : String)
        (fuel page : Nat) (acc : List Vallejo.Rec),
      Vallejo.pageKept exclusions (site page) = [] →
        Vallejo.scrapeLoop site sampler exclusions defaultType rangeStr
          fuel page acc = acc := by
  refine ⟨?_, ?_, ?_⟩
  · intro site sampler setSkus category rangeType page acc hpage hempty
    rw [AK.scrapeLoop, dif_pos hpage]
    simp [hempty]
  · intro site sampler setSkus category rangeType page acc hpage hne
      hfiltered hnext
    rw [AK.scrapeLoop, dif_pos hpage]
    have hkept : AK.pageKept setSkus (site page) = [] := by
      rw [AK.pageKept, hfiltered]
      rfl
    have hlen : ¬ ((site page).items.length = 0) := by
      intro hcon
      exact hne (List.eq_nil_of_length_eq_zero hcon)
    simp [hkept, hnext, hlen]
  · intro site sampler exclusions defaultType rangeStr fuel page acc hkept
    cases fuel with
    | zero => rfl
    | succ m =>
      rw [Vallejo.scrapeLoop]
      simp [hkept]

/-- Witness for the hypotheses of `c7_pagination_stop_amended` at
concrete sites: an empty page stops the AK loop; a page of only
filtered-out items (invalid SKU "SET1") does not stop the AK loop; an
all-filtered page stops the Vallejo loop. -/
theorem c7_pagination_stop_amended_witness :
    (AK.scrapeLoop (fun _ => ⟨[], false⟩) (fun p => p) [] "General" "opaque"
      1 [] = [])
    ∧ (AK.scrapeLoop
        (fun n =>
          if n = 2 then ⟨[⟨some "Big Set", "SET1", none, none, none, none⟩],
            true⟩
          else ⟨[], false⟩)
        (fun p => p) [] "General" "opaque" 2 [] =
      AK.scrapeLoop
        (fun n =>
          if n = 2 then ⟨[⟨some "Big Set", "SET1", none, none, none, none⟩],
            true⟩
          else ⟨[], false⟩)
        (fun p => p) [] "General" "opaque" 3 [])
    ∧ Vallejo.scrapeLoop vallejoExampleSite (fun p => p) [] "contrast"
        "Xpress Color" 9 2 [] = [] :=
  ⟨c7_pagination_stop_amended.1 _ _ _ _ _ 1 [] (by decide) (by decide),
   c7_pagination_stop_amended.2.1 _ _ _ _ _ 2 [] (by decide) (by decide)
     (by decide) (by decide),
   c7_pagination_stop_amended.2.2 _ _ _ _ _ 9 2 [] (by decide)⟩

/-! ## Claim C4 -/

namespace Sampler

theorem score_nonneg {c : Nat × Nat × Nat} (h : ¬ gated c) : 0 ≤ score c := by
  unfold gated at h
  push_neg at h
  obtain ⟨h1, h2⟩ := h
  unfold score
  apply mul_nonneg
  · split
    · apply div_nonneg
      · have hmm : min c.1 (min c.2.1 c.2.2) ≤ max c.1 (max c.2.1 c.2.2) :=
          le_trans (Nat.min_le_left _ _) (Nat.le_max_left _ _)
        have hc := (Nat.cast_le (α := ℚ)).mpr hmm
        linarith
      · positivity
    · exact le_refl 0
  · have habs : |brightness c - 127| ≤ 118 := by
      rw [abs_le]
      constructor <;> linarith
    have hp : |brightness c - 127| / 127 ≤ 118 / 127 :=
      (div_le_div_iff_of_pos_right (by norm_num)).mpr habs
    linarith

theorem pick_fst_some (img : Img) :
    ∀ (regs : List (Nat × Nat)) (c : Nat × Nat × Nat) (q : ℚ),
      ((pick img regs (some c, q)).1).isSome = true := by
  intro regs
  induction regs with
  | nil =>
    intro c q
    rfl
  | cons r rs ih =>
    intro c q
    rw [pick]
    by_cases hg : gated (avgColor img r)
    · rw [if_pos hg]
      exact ih c q
    · rw [if_neg hg]
      by_cases hs : score (avgColor img r) > q
      · rw [if_pos hs]
        exact ih _ _
      · rw [if_neg hs]
        exact ih c q

theorem pick_all_gated (img : Img) :
    ∀ (regs : List (Nat × Nat)) (b : Option (Nat × Nat × Nat) × ℚ),
      (∀ r ∈ regs, gated (avgColor img r)) → pick img regs b = b := by
  intro regs
  induction regs with
  | nil =>
    intro b _
    rfl
  | cons r rs ih =>
    intro b hall
    rw [pick, if_pos (hall r (List.mem_cons_self r rs))]
    exact ih b (fun x hx => hall x (List.mem_cons_of_mem r hx))

theorem pick_fst_origin (img : Img) :
    ∀ (regs : List (Nat × Nat)) (b : Option (Nat × Nat × Nat) × ℚ),
      (pick img regs b).1 = b.1 ∨
        ∃ r ∈ regs, ¬ gated (avgColor img r) ∧
          (pick img regs b).1 = some (avgColor img r) := by
  intro regs
  induction regs with
  | nil =>
    intro b
    exact Or.inl rfl
  | cons r rs ih =>
    intro b
    rw [pick]
    by_cases hg : gated (avgColor img r)
    · rw [if_pos hg]
      rcases ih b with h | ⟨x, hx, hx2, hx3⟩
      · exact Or.inl h
      · exact Or.inr ⟨x, List.mem_cons_of_mem r hx, hx2, hx3⟩
    · rw [if_neg hg]
      by_cases hs : score (avgColor img r) > b.2
      · rw [if_pos hs]
        rcases ih (some (avgColor img r), score (avgColor img r)) with
          h | ⟨x, hx, hx2, hx3⟩
        · exact Or.inr ⟨r, List.mem_cons_self r rs, hg, h⟩
        · exact Or.inr ⟨x, List.mem_cons_of_mem r hx, hx2, hx3⟩
      · rw [if_neg hs]
        rcases ih b with h | ⟨x, hx, hx2, hx3⟩
        · exact Or.inl h
        · exact Or.inr ⟨x, List.mem_cons_of_mem r hx, hx2, hx3⟩

theorem pick_none_imp_gated (img : Img) :
    ∀ regs : List (Nat × Nat),
      (pick img regs (none, -1)).1 = none →
        ∀ r ∈ regs, gated (avgColor img r) := by
  intro regs
  induction regs with
  | nil =>
    intro _ r hr
    simp at hr
  | cons r rs ih =>
    intro hnone x hx
    rw [pick] at hnone
    by_cases hg : gated (avgColor img r)
    · rw [if_pos hg] at hnone
      rcases List.mem_cons.mp hx with h | h
      · subst h
        exact hg
      · exact ih hnone x h
    · exfalso
      rw [if_neg hg] at hnone
      have hscore : score (avgColor img r) > (-1 : ℚ) := by
        have := score_nonneg hg
        linarith
      rw [if_pos hscore] at hnone
      have := pick_fst_some img rs (avgColor img r) (score (avgColor img r))
      rw [hnone] at this
      simp at this

end Sampler

/-- A 10x20 bitmap whose every pixel is near-white: `#FEFEFE` at the
first standard anchor `(5, 4)` and `#FFFFFF` everywhere else. -/
def c4ImgNearWhite : Sampler.Img :=
  ⟨10, 20, fun x y => if x = 5 ∧ y = 4 then (254, 254, 254)
    else (255, 255, 255)⟩

/-- C4 counterexample: the claim says that when every anchor candidate
is rejected by the brightness gate the sampler returns *the first
anchor's* raw pixel value.  The source's fallback is the fixed anchor
`(width // 2, height // 4)` (ak_paint_scraper.py:629-631), which in the
standard layout is the fourth anchor, not the first `(width // 2,
height // 5)`: on this all-near-white image (every pixel's channel sum
exceeds 735, i.e. brightness > 245, so every candidate is gated) the
first anchor holds `#FEFEFE` but the sampler returns `#FFFFFF`. -/
theorem c4_first_anchor_counterexample :
    ((Sampler.sampleRegions "" c4ImgNearWhite).head? = some (5, 4))
    ∧ (∀ x, x < 10 → ∀ y, y < 20 →
        735 < (c4ImgNearWhite.px x y).1 + (c4ImgNearWhite.px x y).2.1 +
          (c4ImgNearWhite.px x y).2.2)
    ∧ (∀ r ∈ Sampler.sampleRegions "" c4ImgNearWhite,
        Sampler.gated (Sampler.avgColor c4ImgNearWhite r))
    ∧ Sampler.hexString (c4ImgNearWhite.px 5 4) = "#FEFEFE"
    ∧ Sampler.sample_color_from_image "" c4ImgNearWhite = "#FFFFFF"
    ∧ ("#FFFFFF" : String) ≠ "#FEFEFE" := by
  refine ⟨by decide, by decide, by decide, by decide, by decide, by decide⟩

/-- C4 (amended): the pure sampling core always produces a hex string
for a decoded image (`null` arises only from the fetch/decode `except`
path, outside this core).  When every anchor candidate is rejected by
the brightness gate, the result is the raw pixel at the *fixed fallback
anchor* `(width // 2, height // 4)` — which need not be the first anchor
of the layout, though it coincides with it on an image that is one
uniform color; otherwise the result is the neighborhood average of some
candidate that passed the gate. -/
theorem c4_sampler_fallback_amended (rangeHint : String)
    (img : Sampler.Img) :
    ((∀ r ∈ Sampler.sampleRegions rangeHint img,
        Sampler.gated (Sampler.avgColor img r)) →
      Sampler.sample_color_from_image rangeHint img =
        Sampler.hexString (img.px (img.width / 2) (img.height / 4)))
    ∧ ((∃ r ∈ Sampler.sampleRegions rangeHint img,
        ¬ Sampler.gated (Sampler.avgColor img r)) →
      ∃ r ∈ Sampler.sampleRegions rangeHint img,
        ¬ Sampler.gated (Sampler.avgColor img r) ∧
          Sampler.sample_color_from_image rangeHint img =
            Sampler.hexString (Sampler.avgColor img r)) := by
  constructor
  · intro hall
    rw [Sampler.sample_color_from_image,
      Sampler.pick_all_gated img _ _ hall]
  · intro hex
    rcases Sampler.pick_fst_origin img (Sampler.sampleRegions rangeHint img)
        (none, -1) with h | ⟨r, hr, hr2, hr3⟩
    · exfalso
      obtain ⟨r, hr, hr2⟩ := hex
      exact hr2 (Sampler.pick_none_imp_gated img _ h r hr)
    · refine ⟨r, hr, hr2, ?_⟩
      rw [Sampler.sample_color_from_image, hr3]

/-- Witness for `c4_sampler_fallback_amended`: on a uniform `#FEFEFE`
image every candidate is gated and the fallback pixel is returned; on a
uniform saturated image some candidate passes the gate and its average
is returned. -/
theorem c4_sampler_fallback_amended_witness :
    (Sampler.sample_color_from_image ""
      ⟨10, 10, fun _ _ => (254, 254, 254)⟩ = "#FEFEFE")
    ∧ ∃ r ∈ Sampler.sampleRegions "" ⟨10, 10, fun _ _ => (200, 30, 40)⟩,
        ¬ Sampler.gated
            (Sampler.avgColor ⟨10, 10, fun _ _ => (200, 30, 40)⟩ r) ∧
          Sampler.sample_color_from_image ""
              ⟨10, 10, fun _ _ => (200, 30, 40)⟩ =
            Sampler.hexString
              (Sampler.avgColor ⟨10, 10, fun _ _ => (200, 30, 40)⟩ r) :=
  ⟨(c4_sampler_fallback_amended "" ⟨10, 10, fun _ _ => (254, 254, 254)⟩).1
      (by decide),
   (c4_sampler_fallback_amended "" ⟨10, 10, fun _ _ => (200, 30, 40)⟩).2
      (by decide)⟩

/-! ## Claim C5 -/

theorem contains_iff_mem {α : Type} [BEq α] [LawfulBEq α] {l : List α}
    {a : α} : l.contains a = true ↔ a ∈ l := by
  rw [List.contains, List.elem_eq_mem]
  simp

namespace Citadel

theorem mem_firstDedupAux :
    ∀ (l seen : List String) (x : String),
      x ∈ firstDedupAux l seen ↔ (x ∈ l ∧ x ∉ seen) := by
  intro l
  induction l with
  | nil =>
    intro seen x
    simp [firstDedupAux]
  | cons a t ih =>
    intro seen x
    rw [firstDedupAux]
    by_cases hc : (seen.contains a : Bool)
    · rw [if_pos hc]
      rw [ih]
      constructor
      · rintro ⟨h1, h2⟩
        exact ⟨List.mem_cons_of_mem a h1, h2⟩
      · rintro ⟨h1, h2⟩
        rcases List.mem_cons.mp h1 with h | h
        · subst h
          exact absurd (contains_iff_mem.mp hc) h2
        · exact ⟨h, h2⟩
    · rw [if_neg hc]
      have hanot : a ∉ seen := fun hmem => hc (contains_iff_mem.mpr hmem)
      constructor
      · intro hmem
        rcases List.mem_cons.mp hmem with h | h
        · subst h
          exact ⟨List.mem_cons_self _ _, hanot⟩
        · obtain ⟨h1, h2⟩ := (ih (a :: seen) x).mp h
          refine ⟨List.mem_cons_of_mem a h1, ?_⟩
          intro hcon
          exact h2 (List.mem_cons_of_mem a hcon)
      · rintro ⟨h1, h2⟩
        rcases List.mem_cons.mp h1 with h | h
        · subst h
          exact List.mem_cons_self _ _
        · by_cases hax : x = a
          · subst hax
            exact List.mem_cons_self x _
          · refine List.mem_cons_of_mem a ((ih (a :: seen) x).mpr ⟨h, ?_⟩)
            intro hcon
            rcases List.mem_cons.mp hcon with hx | hx
            · exact hax hx
            · exact h2 hx

theorem mem_firstDedup {l : List String} {x : String} :
    x ∈ firstDedup l ↔ x ∈ l := by
  rw [firstDedup, mem_firstDedupAux]
  simp

theorem countsList_shape {l : List String} {q : String × Nat}
    (h : q ∈ countsList l) : q.1 ∈ l ∧ q.2 = l.count q.1 := by
  unfold countsList at h
  obtain ⟨c, hc, rfl⟩ := List.mem_map.mp h
  exact ⟨mem_firstDedup.mp hc, rfl⟩

theorem countsList_complete {l : List String} {x : String} (h : x ∈ l) :
    (x, l.count x) ∈ countsList l :=
  List.mem_map_of_mem _ (mem_firstDedup.mpr h)

theorem mem_mostCommon {l : List String} {q : String × Nat} :
    q ∈ mostCommon l ↔ q ∈ countsList l :=
  List.mem_insertionSort countGe

theorem mostCommon_sorted (l : List String) :
    List.Sorted countGe (mostCommon l) :=
  List.sorted_insertionSort countGe (countsList l)

theorem find_first_max {mc : List (String × Nat)}
    {pred : String × Nat → Bool} {p : String × Nat}
    (hs : List.Sorted countGe mc) (hf : mc.find? pred = some p) :
    ∀ q ∈ mc, pred q = true → q.2 ≤ p.2 := by
  induction mc with
  | nil => simp at hf
  | cons a t ih =>
    by_cases hp : (pred a : Bool)
    · rw [List.find?_cons_of_pos _ hp] at hf
      cases hf
      intro q hq _
      rcases List.mem_cons.mp hq with h | h
      · rw [h]
      · exact List.rel_of_sorted_cons hs q h
    · rw [List.find?_cons_of_neg _ hp] at hf
      intro q hq hpq
      rcases List.mem_cons.mp hq with h | h
      · subst h
        exact absurd hpq (by simpa using hp)
      · exact ih hs.of_cons hf q h hpq

theorem head_max {mc : List (String × Nat)} {p : String × Nat}
    (hs : List.Sorted countGe mc) (hh : mc.head? = some p) :
    ∀ q ∈ mc, q.2 ≤ p.2 := by
  cases mc with
  | nil => simp at hh
  | cons a t =>
    cases hh
    intro q hq
    rcases List.mem_cons.mp hq with h | h
    · rw [h]
    · exact List.rel_of_sorted_cons hs q h

theorem chosenColors_ne_nil {d : SvgDoc} (ht : d.toks ≠ []) :
    chosenColors d ≠ [] := by
  unfold chosenColors
  by_cases hr : rectFills d ≠ []
  · rw [if_pos hr]
    simpa using hr
  · rw [if_neg hr]
    have : allTokens d ≠ [] := by
      unfold allTokens
      simpa using ht
    simpa using this

theorem mostCommon_ne_nil {l : List String} (h : l ≠ []) :
    mostCommon l ≠ [] := by
  have hex : ∃ x, x ∈ l := by
    cases l with
    | nil => exact absurd rfl h
    | cons a t => exact ⟨a, List.mem_cons_self a t⟩
  obtain ⟨x, hx⟩ := hex
  intro hcon
  have : (x, l.count x) ∈ mostCommon l :=
    mem_mostCommon.mpr (countsList_complete hx)
  rw [hcon] at this
  simp at this

end Citadel

/-- C5 counterexample: the claim says that (absent a pot/spray match)
the extractor frequency-counts *all fill colors*.  The source instead
counts only `<rect>` fills when any exist, and otherwise counts *every*
hex token — including non-fill colors (citadel_paint_scraper.py:242-255):
on a document with no rect fill, a bare (non-fill) color appearing twice
and a non-rect fill appearing once, the code returns the bare color
while the claim's algorithm returns the only fill color. -/
theorem c5_fill_colors_counterexample :
    (Citadel.extract_hex_from_svg
        ⟨none, [⟨Citadel.TokKind.bare, "123456"⟩,
                ⟨Citadel.TokKind.bare, "123456"⟩,
                ⟨Citadel.TokKind.otherFill, "AABBCC"⟩]⟩ = some "#123456")
    ∧ (Citadel.extractHexClaim
        ⟨none, [⟨Citadel.TokKind.bare, "123456"⟩,
                ⟨Citadel.TokKind.bare, "123456"⟩,
                ⟨Citadel.TokKind.otherFill, "AABBCC"⟩]⟩ = some "#AABBCC")
    ∧ Citadel.extract_hex_from_svg
        ⟨none, [⟨Citadel.TokKind.bare, "123456"⟩,
                ⟨Citadel.TokKind.bare, "123456"⟩,
                ⟨Citadel.TokKind.otherFill, "AABBCC"⟩]⟩ ≠
      Citadel.extractHexClaim
        ⟨none, [⟨Citadel.TokKind.bare, "123456"⟩,
                ⟨Citadel.TokKind.bare, "123456"⟩,
                ⟨Citadel.TokKind.otherFill, "AABBCC"⟩]⟩ := by
  refine ⟨by decide, by decide, by decide⟩

/-- C5 (amended): the vector color extractor first prefers the rect
fill scoped inside the pot/spray clip region; otherwise it
frequency-counts the `<rect>` fill colors when any exist and *all* hex
color tokens of the document (fill or not) when none do, after
normalizing 3-digit hex to 6 digits; it returns `null` exactly when the
document has no pot match and no hex token at all, and otherwise returns
a `#`-prefixed color from the counted pool — the most frequent one
outside the fixed ignore set when one exists, else the single most
frequent color. -/
theorem c5_svg_extractor_amended :
    (∀ (d : Citadel.SvgDoc) (s : String), d.potFill = some s →
      Citadel.extract_hex_from_svg d = some ("#" ++ upperStr s))
    ∧ (∀ d : Citadel.SvgDoc,
      (Citadel.extract_hex_from_svg d).isSome ↔
        (d.potFill.isSome ∨ d.toks ≠ []))
    ∧ ∀ (d : Citadel.SvgDoc) (s : String), d.potFill = none →
      Citadel.extract_hex_from_svg d = some s →
      ∃ x ∈ Citadel.chosenColors d, s = "#" ++ x ∧
        ((¬ Citadel.ignoreColors.contains x ∧
          ∀ y ∈ Citadel.chosenColors d, ¬ Citadel.ignoreColors.contains y →
            (Citadel.chosenColors d).count y ≤ (Citadel.chosenColors d).count x)
         ∨ ((∀ y ∈ Citadel.chosenColors d, Citadel.ignoreColors.contains y) ∧
          ∀ y ∈ Citadel.chosenColors d,
            (Citadel.chosenColors d).count y ≤
              (Citadel.chosenColors d).count x)) := by
  refine ⟨?_, ?_, ?_⟩
  · intro d s h
    rw [Citadel.extract_hex_from_svg, h]
  · intro d
    rcases hpot : d.potFill with _ | s
    · by_cases ht : d.toks = []
      · rw [Citadel.extract_hex_from_svg, hpot]
        have h1 : Citadel.allTokens d = [] := by
          rw [Citadel.allTokens, ht]
          rfl
        have h2 : Citadel.rectFills d = [] := by
          rw [Citadel.rectFills, ht]
          rfl
        rw [if_pos ⟨h1, h2⟩]
        simp [hpot, ht]
      · simp only [hpot, Option.isSome_none, Bool.false_eq_true, false_or]
        constructor
        · intro _
          exact ht
        · intro _
          rw [Citadel.extract_hex_from_svg, hpot]
          have h1 : Citadel.allTokens d ≠ [] := by
            rw [Citadel.allTokens]
            simpa using ht
          rw [if_neg (fun hcon => h1 hcon.1)]
          rcases hf : (Citadel.mostCommon (Citadel.chosenColors d)).find?
              (fun p => ¬ Citadel.ignoreColors.contains p.1) with _ | p
          · rcases hh : (Citadel.mostCommon (Citadel.chosenColors d)).head?
                with _ | p
            · exfalso
              have hne := Citadel.mostCommon_ne_nil
                (Citadel.chosenColors_ne_nil ht)
              rw [List.head?_eq_none_iff] at hh
              exact hne hh
            · rw [hf]
              rfl
          · rw [hf]
            rfl
    · simp [Citadel.extract_hex_from_svg, hpot]
  · intro d s hpot hsome
    rw [Citadel.extract_hex_from_svg, hpot] at hsome
    by_cases hempty : Citadel.allTokens d = [] ∧ Citadel.rectFills d = []
    · rw [if_pos hempty] at hsome
      cases hsome
    · rw [if_neg hempty] at hsome
      have ht : d.toks ≠ [] := by
        intro hcon
        apply hempty
        constructor
        · rw [Citadel.allTokens, hcon]
          rfl
        · rw [Citadel.rectFills, hcon]
          rfl
      rcases hf : (Citadel.mostCommon (Citadel.chosenColors d)).find?
          (fun p => ¬ Citadel.ignoreColors.contains p.1) with _ | p
      · rw [hf] at hsome
        rcases hh : (Citadel.mostCommon (Citadel.chosenColors d)).head?
            with _ | p
        · rw [hh] at hsome
          cases hsome
        · rw [hh] at hsome
          have hps : s = "#" ++ p.1 := (Option.some_inj.mp hsome).symm
          have hpmem : p ∈ Citadel.mostCommon (Citadel.chosenColors d) := by
            cases hmc : Citadel.mostCommon (Citadel.chosenColors d) with
            | nil => rw [hmc] at hh; cases hh
            | cons a t =>
              rw [hmc] at hh
              cases hh
              exact List.mem_cons_self _ _
          obtain ⟨hp1, hp2⟩ :=
            Citadel.countsList_shape (Citadel.mem_mostCommon.mp hpmem)
          refine ⟨p.1, hp1, hps, Or.inr ⟨?_, ?_⟩⟩
          · intro y hy
            have hmem : (y, (Citadel.chosenColors d).count y) ∈
                Citadel.mostCommon (Citadel.chosenColors d) :=
              Citadel.mem_mostCommon.mpr (Citadel.countsList_complete hy)
            have := List.find?_eq_none.mp hf _ hmem
            simpa using this
          · intro y hy
            have hmem : (y, (Citadel.chosenColors d).count y) ∈
                Citadel.mostCommon (Citadel.chosenColors d) :=
              Citadel.mem_mostCommon.mpr (Citadel.countsList_complete hy)
            have := Citadel.head_max
              (Citadel.mostCommon_sorted (Citadel.chosenColors d)) hh _ hmem
            rw [← hp2]
            exact this
      · rw [hf] at hsome
        have hps : s = "#" ++ p.1 := (Option.some_inj.mp hsome).symm
        have hpmem : p ∈ Citadel.mostCommon (Citadel.chosenColors d) :=
          List.mem_of_find?_eq_some hf
        obtain ⟨hp1, hp2⟩ :=
          Citadel.countsList_shape (Citadel.mem_mostCommon.mp hpmem)
        have hppred := List.find?_some hf
        refine ⟨p.1, hp1, hps, Or.inl ⟨by simpa using hppred, ?_⟩⟩
        intro y hy hyig
        have hmem : (y, (Citadel.chosenColors d).count y) ∈
            Citadel.mostCommon (Citadel.chosenColors d) :=
          Citadel.mem_mostCommon.mpr (Citadel.countsList_complete hy)
        have := Citadel.find_first_max
          (Citadel.mostCommon_sorted (Citadel.chosenColors d)) hf _ hmem
          (by simpa using hyig)
        rw [← hp2]
        exact this

/-- Witness for `c5_svg_extractor_amended`: a pot-scoped fill is
returned uppercased; the result on a two-token document is a counted
color that wins the ignore-set preference. -/
theorem c5_svg_extractor_amended_witness :
    (Citadel.extract_hex_from_svg ⟨some "8f7c68", []⟩ = some "#8F7C68")
    ∧ ((Citadel.extract_hex_from_svg
        ⟨none, [⟨Citadel.TokKind.bare, "FFFFFF"⟩,
                ⟨Citadel.TokKind.bare, "8F7C68"⟩]⟩).isSome ↔
        ((none : Option String).isSome ∨
          ([⟨Citadel.TokKind.bare, "FFFFFF"⟩,
            ⟨Citadel.TokKind.bare, "8F7C68"⟩] : List Citadel.Tok) ≠ []))
    ∧ ∃ x ∈ Citadel.chosenColors
        ⟨none, [⟨Citadel.TokKind.bare, "FFFFFF"⟩,
                ⟨Citadel.TokKind.bare, "8F7C68"⟩]⟩,
        "#8F7C68" = "#" ++ x ∧
        ((¬ Citadel.ignoreColors.contains x ∧
          ∀ y ∈ Citadel.chosenColors
              ⟨none, [⟨Citadel.TokKind.bare, "FFFFFF"⟩,
                      ⟨Citadel.TokKind.bare, "8F7C68"⟩]⟩,
            ¬ Citadel.ignoreColors.contains y →
            (Citadel.chosenColors
              ⟨none, [⟨Citadel.TokKind.bare, "FFFFFF"⟩,
                      ⟨Citadel.TokKind.bare, "8F7C68"⟩]⟩).count y ≤
              (Citadel.chosenColors
                ⟨none, [⟨Citadel.TokKind.bare, "FFFFFF"⟩,
                        ⟨Citadel.TokKind.bare, "8F7C68"⟩]⟩).count x)
         ∨ ((∀ y ∈ Citadel.chosenColors
              ⟨none, [⟨Citadel.TokKind.bare, "FFFFFF"⟩,
                      ⟨Citadel.TokKind.bare, "8F7C68"⟩]⟩,
            Citadel.ignoreColors.contains y) ∧
          ∀ y ∈ Citadel.chosenColors
              ⟨none, [⟨Citadel.TokKind.bare, "FFFFFF"⟩,
                      ⟨Citadel.TokKind.bare, "8F7C68"⟩]⟩,
            (Citadel.chosenColors
              ⟨none, [⟨Citadel.TokKind.bare, "FFFFFF"⟩,
                      ⟨Citadel.TokKind.bare, "8F7C68"⟩]⟩).count y ≤
              (Citadel.chosenColors
                ⟨none, [⟨Citadel.TokKind.bare, "FFFFFF"⟩,
                        ⟨Citadel.TokKind.bare, "8F7C68"⟩]⟩).count x)) :=
  ⟨c5_svg_extractor_amended.1 ⟨some "8f7c68", []⟩ "8f7c68" rfl,
   c5_svg_extractor_amended.2.1 _,
   c5_svg_extractor_amended.2.2
     ⟨none, [⟨Citadel.TokKind.bare, "FFFFFF"⟩,
             ⟨Citadel.TokKind.bare, "8F7C68"⟩]⟩ "#8F7C68" rfl (by decide)⟩

/-! ## Claims C1 and C2 -/

theorem lookupA_cons_self {α : Type} (s : List (String × α)) (k : String)
    (v : α) : lookupA ((k, v) :: s) k = some v := by
  unfold lookupA
  rw [List.find?_cons_of_pos _ (by simp)]
  rfl

theorem lookupA_cons_ne {α : Type} (s : List (String × α))
    {k k' : String} (v : α) (h : k' ≠ k) :
    lookupA ((k', v) :: s) k = lookupA s k := by
  unfold lookupA
  rw [List.find?_cons_of_neg _ (by simpa using h)]

theorem lookupA_some_mem {α : Type} {s : List (String × α)} {k : String}
    {v : α} (h : lookupA s k = some v) : (k, v) ∈ s := by
  unfold lookupA at h
  rcases hf : s.find? (fun p => p.1 = k) with _ | q
  · rw [hf] at h
    cases h
  · rw [hf] at h
    have hq : q ∈ s := List.mem_of_find?_eq_some hf
    have hk : q.1 = k := by simpa using List.find?_some hf
    have hv : q.2 = v := by
      simpa using h
    have : q = (k, v) := Prod.ext hk hv
    rw [← this]
    exact hq

theorem lookupA_cons_ne_none {α : Type} {s : List (String × α)}
    {k : String} (k' : String) (v : α) (h : lookupA s k ≠ none) :
    lookupA ((k', v) :: s) k ≠ none := by
  by_cases hk : k' = k
  · subst hk
    rw [lookupA_cons_self]
    simp
  · rw [lookupA_cons_ne s v hk]
    exact h

namespace AK

/-- Eligibility for the master lookups of `batch_update_json_files`:
the record carries a truthy `sku` and a truthy `hex`. -/
def elig (p : Rec) : Prop := p.sku ≠ "" ∧ optTruthy p.hex = true

instance : DecidablePred elig := fun p =>
  inferInstanceAs (Decidable (p.sku ≠ "" ∧ optTruthy p.hex = true))

/-- The normalized SKUs of the eligible fresh records, in order. -/
def eligNorms (scraped : List Rec) : List String :=
  (scraped.filter (fun p => decide (elig p))).map
    (fun p => normalize_sku p.sku)

/-- Every `sku_to_data` pair maps the normalization of its record's SKU
to that record, and the record is eligible. -/
def SMapInv (s : List (String × Rec)) : Prop :=
  ∀ q ∈ s, q.1 = normalize_sku q.2.sku ∧ q.2.sku ≠ "" ∧
    optTruthy q.2.hex = true

/-- Every `name_to_data` record is eligible, its key is non-empty, and
its normalized SKU is a key of `sku_to_data`. -/
def NMapBasicInv (s n : List (String × Rec)) : Prop :=
  ∀ q ∈ n, q.1 ≠ "" ∧ q.2.sku ≠ "" ∧ optTruthy q.2.hex = true ∧
    lookupA s (normalize_sku q.2.sku) ≠ none

/-- Every `name_to_data` record is recovered exactly by the SKU lookup
at its normalized SKU (this needs the fresh normalized SKUs to be
pairwise distinct — with duplicates a later record shadows it). -/
def NMapExactInv (s n : List (String × Rec)) : Prop :=
  ∀ q ∈ n, lookupA s (normalize_sku q.2.sku) = some q.2

theorem buildMapsStep_pres {acc : List (String × Rec) × List (String × Rec)}
    {p : Rec} (hs : SMapInv acc.1) (hn : NMapBasicInv acc.1 acc.2) :
    SMapInv (buildMapsStep acc p).1 ∧
      NMapBasicInv (buildMapsStep acc p).1 (buildMapsStep acc p).2 := by
  unfold buildMapsStep
  rcases hh : p.hex with _ | h
  · exact ⟨hs, hn⟩
  · dsimp only
    by_cases hc : p.sku ≠ "" ∧ h ≠ ""
    · rw [if_pos hc]
      dsimp only
      have hsmap : SMapInv ((normalize_sku p.sku, p) :: acc.1) := by
        intro q hq
        rcases List.mem_cons.mp hq with h1 | h1
        · subst h1
          refine ⟨rfl, hc.1, ?_⟩
          rw [hh]
          simpa [optTruthy] using hc.2
        · exact hs q h1
      refine ⟨hsmap, ?_⟩
      have hold : ∀ q ∈ acc.2,
          q.1 ≠ "" ∧ q.2.sku ≠ "" ∧ optTruthy q.2.hex = true ∧
            lookupA ((normalize_sku p.sku, p) :: acc.1)
              (normalize_sku q.2.sku) ≠ none := by
        intro q hq
        obtain ⟨h1, h2, h3, h4⟩ := hn q hq
        exact ⟨h1, h2, h3, lookupA_cons_ne_none _ _ h4⟩
      by_cases hins : normalize_name p.title ≠ "" ∧
          lookupA acc.2 (normalize_name p.title) = none
      · rw [if_pos hins]
        intro q hq
        rcases List.mem_cons.mp hq with h1 | h1
        · subst h1
          refine ⟨hins.1, hc.1, ?_, ?_⟩
          · rw [hh]
            simpa [optTruthy] using hc.2
          · rw [lookupA_cons_self]
            simp
        · exact hold q h1
      · rw [if_neg hins]
        exact hold
    · rw [if_neg hc]
      exact ⟨hs, hn⟩

theorem buildMaps_fold_basic :
    ∀ (ps : List Rec) (acc : List (String × Rec) × List (String × Rec)),
      SMapInv acc.1 → NMapBasicInv acc.1 acc.2 →
      SMapInv (ps.foldl buildMapsStep acc).1 ∧
        NMapBasicInv (ps.foldl buildMapsStep acc).1
          (ps.foldl buildMapsStep acc).2 := by
  intro ps
  induction ps with
  | nil =>
    intro acc hs hn
    exact ⟨hs, hn⟩
  | cons p t ih =>
    intro acc hs hn
    rw [List.foldl_cons]
    obtain ⟨hs', hn'⟩ := buildMapsStep_pres hs hn
    exact ih _ hs' hn'

theorem buildMaps_basic (scraped : List Rec) :
    SMapInv (buildMaps scraped).1 ∧
      NMapBasicInv (buildMaps scraped).1 (buildMaps scraped).2 := by
  unfold buildMaps
  exact buildMaps_fold_basic scraped ([], [])
    (fun q hq => absurd hq (List.not_mem_nil q))
    (fun q hq => absurd hq (List.not_mem_nil q))

theorem eligNorms_cons_of_hex_none {p : Rec} {t : List Rec}
    (hh : p.hex = none) : eligNorms (p :: t) = eligNorms t := by
  unfold eligNorms
  rw [List.filter_cons, if_neg]
  simp [elig, optTruthy, hh]

theorem eligNorms_cons_of_inelig {p : Rec} {t : List Rec} {h : String}
    (hh : p.hex = some h) (hc : ¬ (p.sku ≠ "" ∧ h ≠ "")) :
    eligNorms (p :: t) = eligNorms t := by
  unfold eligNorms
  rw [List.filter_cons, if_neg]
  simp only [elig, optTruthy, hh, decide_eq_true_eq]
  intro hcon
  apply hc
  refine ⟨hcon.1, ?_⟩
  have := hcon.2
  simpa using this

theorem eligNorms_cons_of_elig {p : Rec} {t : List Rec} {h : String}
    (hh : p.hex = some h) (hc : p.sku ≠ "" ∧ h ≠ "") :
    eligNorms (p :: t) = normalize_sku p.sku :: eligNorms t := by
  unfold eligNorms
  rw [List.filter_cons, if_pos]
  · rfl
  · simp only [elig, optTruthy, hh, decide_eq_true_eq]
    exact ⟨hc.1, by simpa using hc.2⟩

theorem buildMaps_fold_exact :
    ∀ (ps : List Rec) (acc : List (String × Rec) × List (String × Rec)),
      SMapInv acc.1 → NMapBasicInv acc.1 acc.2 →
      NMapExactInv acc.1 acc.2 →
      (∀ k ∈ eligNorms ps, lookupA acc.1 k = none) →
      (eligNorms ps).Nodup →
      NMapExactInv (ps.foldl buildMapsStep acc).1
        (ps.foldl buildMapsStep acc).2 := by
  intro ps
  induction ps with
  | nil =>
    intro acc _ _ hx _ _
    exact hx
  | cons p t ih =>
    intro acc hs hn hx hnew hnd
    rw [List.foldl_cons]
    rcases hh : p.hex with _ | h
    · have hstep : buildMapsStep acc p = acc := by
        unfold buildMapsStep
        rw [hh]
      rw [hstep]
      rw [eligNorms_cons_of_hex_none hh] at hnew hnd
      exact ih acc hs hn hx hnew hnd
    · by_cases hc : p.sku ≠ "" ∧ h ≠ ""
      · have hk0 : lookupA acc.1 (normalize_sku p.sku) = none := by
          apply hnew
          rw [eligNorms_cons_of_elig hh hc]
          exact List.mem_cons_self _ _
        rw [eligNorms_cons_of_elig hh hc] at hnd
        have hk0nin : normalize_sku p.sku ∉ eligNorms t :=
          (List.nodup_cons.mp hnd).1
        have hstep : buildMapsStep acc p =
            ((normalize_sku p.sku, p) :: acc.1,
             if normalize_name p.title ≠ "" ∧
                 lookupA acc.2 (normalize_name p.title) = none then
               (normalize_name p.title, p) :: acc.2
             else acc.2) := by
          unfold buildMapsStep
          rw [hh]
          dsimp only
          rw [if_pos hc]
        rw [hstep]
        apply ih
        · rw [← hstep]
          exact (buildMapsStep_pres hs hn).1
        · rw [← hstep]
          exact (buildMapsStep_pres hs hn).2
        · -- exactness preserved by the cons
          intro q hq
          dsimp only at hq
          have hqmem : q = (normalize_name p.title, p) ∨ q ∈ acc.2 := by
            by_cases hins : normalize_name p.title ≠ "" ∧
                lookupA acc.2 (normalize_name p.title) = none
            · rw [if_pos hins] at hq
              exact List.mem_cons.mp hq
            · rw [if_neg hins] at hq
              exact Or.inr hq
          rcases hqmem with h1 | h1
          · subst h1
            dsimp only
            rw [lookupA_cons_self]
          · have hold := hx q h1
            have hne : normalize_sku q.2.sku ≠ normalize_sku p.sku := by
              intro hcon
              rw [hcon, hk0] at hold
              cases hold
            dsimp only
            rw [lookupA_cons_ne _ _ (fun hcon => hne hcon.symm)]
            exact hold
        · intro k hk
          have hkne : k ≠ normalize_sku p.sku := by
            intro hcon
            subst hcon
            exact hk0nin hk
          dsimp only
          rw [lookupA_cons_ne _ _ (fun hcon => hkne hcon.symm)]
          exact hnew k (by
            rw [eligNorms_cons_of_elig hh hc]
            exact List.mem_cons_of_mem _ hk)
        · exact (List.nodup_cons.mp hnd).2
      · have hstep : buildMapsStep acc p = acc := by
          unfold buildMapsStep
          rw [hh]
          dsimp only
          rw [if_neg hc]
        rw [hstep]
        rw [eligNorms_cons_of_inelig hh hc] at hnew hnd
        exact ih acc hs hn hx hnew hnd

theorem buildMaps_exact (scraped : List Rec)
    (hnd : (eligNorms scraped).Nodup) :
    NMapExactInv (buildMaps scraped).1 (buildMaps scraped).2 := by
  unfold buildMaps
  exact buildMaps_fold_exact scraped ([], [])
    (fun q hq => absurd hq (List.not_mem_nil q))
    (fun q hq => absurd hq (List.not_mem_nil q))
    (fun q hq => absurd hq (List.not_mem_nil q))
    (fun k _ => rfl)
    hnd

end AK

namespace AK

theorem bmEntry_eq_sku {s n : List (String × Rec)} {e : Entry} {m : Rec}
    (h : lookupA s (normalize_sku e.sku) = some m) :
    bmEntry s n e = ({ e with hex := m.hex }, (e.hex ≠ m.hex : Bool),
      false) := by
  unfold bmEntry
  rw [h]

theorem bmEntry_eq_none {s n : List (String × Rec)} {e : Entry}
    (h1 : lookupA s (normalize_sku e.sku) = none)
    (h2 : (if normalize_name e.name ≠ "" then
        lookupA n (normalize_name e.name) else none) = none) :
    bmEntry s n e = (e, false, false) := by
  unfold bmEntry
  rw [h1]
  dsimp only
  rw [h2]

theorem bmEntry_eq_name_sku {s n : List (String × Rec)} {e : Entry}
    {m : Rec}
    (h1 : lookupA s (normalize_sku e.sku) = none)
    (h2 : (if normalize_name e.name ≠ "" then
        lookupA n (normalize_name e.name) else none) = some m)
    (hc : e.sku ≠ m.sku ∧ m.sku ≠ "") :
    bmEntry s n e =
      ({ e with
          hex := m.hex,
          sku := m.sku,
          url := if optTruthy m.product_url then m.product_url else e.url },
       true, true) := by
  unfold bmEntry
  rw [h1]
  dsimp only
  rw [h2]
  dsimp only
  rw [if_pos hc]

theorem bmEntry_eq_name_nosku {s n : List (String × Rec)} {e : Entry}
    {m : Rec}
    (h1 : lookupA s (normalize_sku e.sku) = none)
    (h2 : (if normalize_name e.name ≠ "" then
        lookupA n (normalize_name e.name) else none) = some m)
    (hc : ¬ (e.sku ≠ m.sku ∧ m.sku ≠ "")) :
    bmEntry s n e = ({ e with hex := m.hex }, (e.hex ≠ m.hex : Bool),
      false) := by
  unfold bmEntry
  rw [h1]
  dsimp only
  rw [h2]
  dsimp only
  rw [if_neg hc]

theorem bmEntry_idem {s n : List (String × Rec)} (hx : NMapExactInv s n)
    (e : Entry) :
    bmEntry s n (bmEntry s n e).1 = ((bmEntry s n e).1, false, false) := by
  rcases hsku : lookupA s (normalize_sku e.sku) with _ | m
  · rcases hname : (if normalize_name e.name ≠ "" then
        lookupA n (normalize_name e.name) else none) with _ | m
    · rw [bmEntry_eq_none hsku hname]
      show bmEntry s n e = (e, false, false)
      exact bmEntry_eq_none hsku hname
    · have hnn : normalize_name e.name ≠ "" := by
        intro hcon
        rw [if_neg (by simp [hcon])] at hname
        cases hname
      have hname' : lookupA n (normalize_name e.name) = some m := by
        rw [if_pos hnn] at hname
        exact hname
      have hmem := lookupA_some_mem hname'
      have hexact : lookupA s (normalize_sku m.sku) = some m := hx _ hmem
      by_cases hc : e.sku ≠ m.sku ∧ m.sku ≠ ""
      · rw [bmEntry_eq_name_sku hsku hname hc]
        show bmEntry s n
          { e with
            hex := m.hex,
            sku := m.sku,
            url := if optTruthy m.product_url then m.product_url
              else e.url } = _
        have h2 : lookupA s (normalize_sku
            (({ e with
                hex := m.hex,
                sku := m.sku,
                url := if optTruthy m.product_url then m.product_url
                  else e.url } : Entry).sku)) = some m := hexact
        rw [bmEntry_eq_sku h2]
        simp
      · rw [bmEntry_eq_name_nosku hsku hname hc]
        show bmEntry s n { e with hex := m.hex } = _
        have h1' : lookupA s (normalize_sku
            (({ e with hex := m.hex } : Entry).sku)) = none := hsku
        have h2' : (if normalize_name
              (({ e with hex := m.hex } : Entry).name) ≠ "" then
            lookupA n (normalize_name
              (({ e with hex := m.hex } : Entry).name)) else none) =
            some m := hname
        have hc' : ¬ ((({ e with hex := m.hex } : Entry).sku ≠ m.sku) ∧
            m.sku ≠ "") := hc
        rw [bmEntry_eq_name_nosku h1' h2' hc']
        simp
  · rw [bmEntry_eq_sku hsku]
    show bmEntry s n { e with hex := m.hex } = _
    have h2 : lookupA s (normalize_sku
        (({ e with hex := m.hex } : Entry).sku)) = some m := hsku
    rw [bmEntry_eq_sku h2]
    simp

theorem bmList_idem {s n : List (String × Rec)} (hx : NMapExactInv s n) :
    ∀ es : List Entry,
      bmList s n (bmList s n es).1 = ((bmList s n es).1, 0, 0) := by
  intro es
  induction es with
  | nil => rfl
  | cons e t ih =>
    simp only [bmList]
    rw [bmEntry_idem hx e, ih]
    simp

end AK

namespace AK

/-- Extracting from a rebuilt catalogue gives back the new paint list. -/
theorem paints_withPaints (c : Catalogue) (l : List Entry) :
    (c.withPaints l).paints = l := by
  cases c <;> rfl

/-- Rebuilding twice keeps only the last paint list. -/
theorem withPaints_withPaints (c : Catalogue) (l l2 : List Entry) :
    (c.withPaints l).withPaints l2 = c.withPaints l2 := by
  cases c <;> rfl

/-- The per-entry hex refresh of `update_existing_json` is a counted
fixed point: a second application returns the same entry and the same
count (the count is 1 whenever the SKU matches, changed hex or not). -/
theorem updEntry_idem (m : List (String × String)) (e : Entry) :
    updEntry m (updEntry m e).1 = updEntry m e := by
  rcases h : lookupA m (normalize_sku e.sku) with _ | hv
  · have h1 : updEntry m e = (e, 0) := by
      unfold updEntry
      rw [h]
    rw [h1]
    show updEntry m e = (e, 0)
    exact h1
  · have h1 : updEntry m e = ({ e with hex := some hv }, 1) := by
      unfold updEntry
      rw [h]
    rw [h1]
    show updEntry m { e with hex := some hv } = _
    have h2 : lookupA m (normalize_sku
        (({ e with hex := some hv } : Entry).sku)) = some hv := h
    have h3 : updEntry m { e with hex := some hv } =
        ({ ({ e with hex := some hv } : Entry) with hex := some hv }, 1) := by
      unfold updEntry
      rw [h2]
    rw [h3]

theorem updList_idem (m : List (String × String)) :
    ∀ es : List Entry, updList m (updList m es).1 = updList m es := by
  intro es
  induction es with
  | nil => rfl
  | cons e t ih =>
    simp only [updList]
    rw [updEntry_idem, ih]

/-- The single-file merge is a fixed point in both the catalogue and the
reported count: a second run changes nothing but reports the same count
as the first (not zero), because updates are counted on every SKU match
regardless of whether the hex actually changed. -/
theorem update_existing_json_idem (scraped : List Rec) (c : Catalogue) :
    update_existing_json scraped (update_existing_json scraped c).1 =
      update_existing_json scraped c := by
  simp only [update_existing_json]
  rw [paints_withPaints, updList_idem, withPaints_withPaints]

/-- The per-file batch merge is idempotent when the eligible fresh
records have pairwise distinct normalized SKUs: a second run returns the
same catalogue with both counters zero. -/
theorem batchMergeFile_idem (scraped : List Rec) (c : Catalogue)
    (hnd : (eligNorms scraped).Nodup) :
    batchMergeFile scraped (batchMergeFile scraped c).1 =
      ((batchMergeFile scraped c).1, 0, 0) := by
  have hx := buildMaps_exact scraped hnd
  simp only [batchMergeFile]
  rw [paints_withPaints, bmList_idem hx c.paints]
  simp [withPaints_withPaints]

end AK

/-! ### Claim C1: merge idempotence -/

/-- A fresh record whose hex already matches the stored catalogue. -/
def c1scrA : List AK.Rec :=
  [⟨some "A", "AK1", some "#112233", none, none, none⟩]

/-- A one-entry flat catalogue already carrying the fresh hex. -/
def c1catA : AK.Catalogue :=
  .flat [⟨"AK", "General", false, some "#112233", "id1", some "A",
    "Acrylic", "AK1", "acrylic", none⟩]

/-- Two fresh records sharing the normalized SKU `AK1` but with
different hexes: the later one shadows the earlier in `sku_to_data`
while `name_to_data` keeps the earlier under its name. -/
def c1scrB : List AK.Rec :=
  [⟨some "Foo", "AK1", some "#111111", none, none, none⟩,
   ⟨some "Bar", "AK 1", some "#222222", none, none, none⟩]

/-- A catalogue entry matched by name (`Foo`) on the first batch run. -/
def c1catB : AK.Catalogue :=
  .flat [⟨"AK", "General", false, none, "id2", some "Foo", "Acrylic",
    "ZZZ9", "acrylic", none⟩]

/-- C1 counterexample.  The second run of the single-file merge
`update_existing_json` reports an updated count of 1, not 0 (every SKU
match is counted, changed hex or not); and with two fresh records whose
normalized SKUs collide, the second run of the per-file batch merge also
reports an updated count of 1, because the first run renames the entry
via the name lookup to the earlier record's SKU while the SKU lookup was
shadowed by the later record, whose different hex is then installed on
the second run. -/
theorem c1_second_run_count_counterexample :
    (AK.update_existing_json c1scrA
      (AK.update_existing_json c1scrA c1catA).1).2 = 1 ∧
    (AK.batchMergeFile c1scrB (AK.batchMergeFile c1scrB c1catB).1).2.1
      = 1 := by
  decide

/-- C1 amended.  The single-file merge `update_existing_json` is a fixed
point in catalogue state and repeats the same (possibly nonzero) updated
count on a second run; the per-file batch merge
(`batch_update_json_files` on each file) is idempotent with both
counters zero on the second run, provided the eligible fresh records
have pairwise distinct normalized SKUs. -/
theorem c1_merge_idempotence_amended :
    (∀ (scraped : List AK.Rec) (c : AK.Catalogue),
      AK.update_existing_json scraped
          (AK.update_existing_json scraped c).1 =
        AK.update_existing_json scraped c) ∧
    (∀ (scraped : List AK.Rec) (c : AK.Catalogue),
      (AK.eligNorms scraped).Nodup →
      AK.batchMergeFile scraped (AK.batchMergeFile scraped c).1 =
        ((AK.batchMergeFile scraped c).1, 0, 0)) :=
  ⟨AK.update_existing_json_idem, AK.batchMergeFile_idem⟩

/-- Witness for C1 amended at a concrete input with distinct normalized
fresh SKUs. -/
theorem c1_merge_idempotence_amended_witness :
    (AK.eligNorms c1scrA).Nodup ∧
    AK.batchMergeFile c1scrA (AK.batchMergeFile c1scrA c1catA).1 =
      ((AK.batchMergeFile c1scrA c1catA).1, 0, 0) :=
  ⟨by decide, c1_merge_idempotence_amended.2 c1scrA c1catA (by decide)⟩

/-! ### Claim C2: batch SKU rename via the name lookup -/

/-- A fresh record under a new SKU but the old display name, carrying a
hex and no product URL. -/
def c2scr : List AK.Rec :=
  [⟨some "Old Name", "09703", some "#112233", none, none, none⟩]

/-- The stored entry under the vendor's old SKU. -/
def c2e : AK.Entry :=
  ⟨"AK", "General", false, none, "idC2", some "Old Name", "Acrylic",
    "09701", "acrylic", some "https://old"⟩

/-- What the batch merge makes of `c2e`: the SKU is rewritten and the
hex installed, but the URL keeps its old value. -/
def c2e2 : AK.Entry :=
  ⟨"AK", "General", false, some "#112233", "idC2", some "Old Name",
    "Acrylic", "09703", "acrylic", some "https://old"⟩

/-- C2 counterexample.  When the matching fresh record lacks a truthy
`product_url`, the batch merge rewrites the entry's SKU and counts one
sku-change and one update, but does NOT update the entry's url: the
claim's unconditional "updates its url" fails. -/
theorem c2_url_update_counterexample :
    AK.batchMergeFile c2scr (AK.Catalogue.flat [c2e]) =
      (AK.Catalogue.flat [c2e2], 1, 1) ∧
    c2e2.url = c2e.url ∧ c2e2.sku = "09703" ∧ c2e.sku = "09701" := by
  decide

/-- C2 amended.  For an entry whose normalized SKU misses the fresh SKU
lookup but whose normalized name hits `name_to_data` with a record of a
different SKU, the batch merge installs the record's hex, rewrites the
entry's SKU to the record's SKU, counts one update and one sku-change,
and rewrites the url only when the record's `product_url` is truthy
(otherwise the stored url is kept).  The record's non-empty SKU and the
non-empty normalized name follow from the lookup-map invariants. -/
theorem c2_sku_rename_amended (scraped : List AK.Rec) (e : AK.Entry)
    (m : AK.Rec)
    (h1 : lookupA (AK.buildMaps scraped).1 (AK.normalize_sku e.sku) =
      none)
    (h2 : lookupA (AK.buildMaps scraped).2 (AK.normalize_name e.name) =
      some m)
    (h3 : e.sku ≠ m.sku) :
    AK.batchMergeFile scraped (AK.Catalogue.flat [e]) =
      (AK.Catalogue.flat
        [{ e with
            hex := m.hex,
            sku := m.sku,
            url := if optTruthy m.product_url then m.product_url
              else e.url }],
       1, 1) := by
  have hmem := lookupA_some_mem h2
  obtain ⟨hnn, hmsku, -, -⟩ := (AK.buildMaps_basic scraped).2 _ hmem
  have h2' : (if AK.normalize_name e.name ≠ "" then
      lookupA (AK.buildMaps scraped).2 (AK.normalize_name e.name)
      else none) = some m := by
    rw [if_pos hnn]
    exact h2
  have he := AK.bmEntry_eq_name_sku h1 h2' ⟨h3, hmsku⟩
  simp only [AK.batchMergeFile, AK.Catalogue.paints, AK.bmList]
  rw [he]
  simp [AK.Catalogue.withPaints]

/-- A fresh record as in `c2scr` but with a truthy product URL. -/
def c2wscr : List AK.Rec :=
  [⟨some "Old Name", "09703", some "#112233", some "https://new", none,
    none⟩]

/-- The single record of `c2wscr`. -/
def c2wrec : AK.Rec :=
  ⟨some "Old Name", "09703", some "#112233", some "https://new", none,
    none⟩

/-- The stored entry used by the C2 witness. -/
def c2we : AK.Entry :=
  ⟨"AK", "General", false, none, "idW", some "Old Name", "Acrylic",
    "09701", "acrylic", some "https://old"⟩

/-- Witness for C2 amended at a concrete input whose fresh record has a
truthy product URL, so the url is rewritten too. -/
theorem c2_sku_rename_amended_witness :
    c2we.sku ≠ c2wrec.sku ∧
    AK.batchMergeFile c2wscr (AK.Catalogue.flat [c2we]) =
      (AK.Catalogue.flat
        [{ c2we with
            hex := c2wrec.hex,
            sku := c2wrec.sku,
            url := if optTruthy c2wrec.product_url then
              c2wrec.product_url else c2we.url }],
       1, 1) :=
  ⟨by decide,
   c2_sku_rename_amended c2wscr c2we c2wrec (by decide) (by decide)
     (by decide)⟩
